import Mathlib

/-! # yaml-comment: the value walker `ToYamlNode` and the emptiness rule `isZero`

A shallow embedding of `yaml.go`.  Go values are modelled as the tree that
reflection shows of them (`Value`), the produced tree is `Node` (the fields of
`yaml.Node` the walker reads or writes), and a call has one of three outcomes
(`Result`): a value, a returned error, or a run-time panic.

Functions of the Go standard library and of `gopkg.in/yaml.v3` that the walker
calls but that are not part of the repository (`Node.Encode`,
`reflect.StructTag.Get`, `strings.ToLower`) are a parameter `Lib`; `specLib`
is one instance, used for concrete evaluations.
-/

namespace YamlComment

/-! ## Outcomes -/

/-- Outcome of a Go call: a returned value, a returned error, or a panic that
aborts the call (and every caller, nothing in the package recovers). -/
inductive Result (α : Type) where
  | ok (a : α)
  | error (msg : String)
  | panic (msg : String)
  deriving Repr

/-- True for the outcome `ok`. -/
def Result.isOk {α : Type} : Result α → Bool
  | .ok _ => true
  | _ => false

/-- True for a returned error. -/
def Result.isError {α : Type} : Result α → Bool
  | .error _ => true
  | _ => false

/-- True for a panic. -/
def Result.isPanic {α : Type} : Result α → Bool
  | .panic _ => true
  | _ => false

/-! ## The produced tree (`yaml.Node`) -/

/-- The node kinds of `yaml.v3` (`yaml.Kind`); `zero` is the zero value of the
type, the kind of a freshly declared node. -/
inductive NodeKind where
  | zero
  | DocumentNode
  | SequenceNode
  | MappingNode
  | ScalarNode
  | AliasNode
  deriving DecidableEq, Repr

/-- The `yaml.Node` record: `Kind`, `Style`, `Tag`, `Value`, `Anchor`,
`Content`, `HeadComment`, `LineComment`, `FootComment`, in this order.  `Alias`
(always nil here), `Line` and `Column` are never read or written by the walker
and are left out. -/
inductive Node where
  | mk (Kind : NodeKind) (Style : Nat) (Tag Value Anchor : String)
      (Content : List Node) (HeadComment LineComment FootComment : String)
  deriving Repr

/-- Field `Kind`. -/
def Node.Kind : Node → NodeKind
  | .mk k _ _ _ _ _ _ _ _ => k

/-- Field `Tag`. -/
def Node.Tag : Node → String
  | .mk _ _ t _ _ _ _ _ _ => t

/-- Field `Value`. -/
def Node.Value : Node → String
  | .mk _ _ _ v _ _ _ _ _ => v

/-- Field `Content`. -/
def Node.Content : Node → List Node
  | .mk _ _ _ _ _ c _ _ _ => c

/-- Field `HeadComment`. -/
def Node.HeadComment : Node → String
  | .mk _ _ _ _ _ _ h _ _ => h

/-- Field `LineComment`. -/
def Node.LineComment : Node → String
  | .mk _ _ _ _ _ _ _ l _ => l

/-- Field `FootComment`. -/
def Node.FootComment : Node → String
  | .mk _ _ _ _ _ _ _ _ f => f

/-- The three assignments `n.HeadComment = h; n.FootComment = f;
n.LineComment = l` of the struct case. -/
def Node.setComments (n : Node) (head foot line : String) : Node :=
  match n with
  | .mk k s t v a c _ _ _ => .mk k s t v a c head line foot

def nullTag : String := "!!null"
def boolTag : String := "!!bool"
def strTag : String := "!!str"
def intTag : String := "!!int"
def floatTag : String := "!!float"
def timestampTag : String := "!!timestamp"
def seqTag : String := "!!seq"
def mapTag : String := "!!map"
def binaryTag : String := "!!binary"
def mergeTag : String := "!!merge"

/-! ## Go values as reflection shows them -/

/-- The kinds of `reflect.Kind`. -/
inductive Kind where
  | Invalid | Bool
  | Int | Int8 | Int16 | Int32 | Int64
  | Uint | Uint8 | Uint16 | Uint32 | Uint64 | Uintptr
  | Float32 | Float64 | Complex64 | Complex128
  | Array | Chan | Func | Interface | Map | Ptr | Slice | String | Struct
  | UnsafePointer
  deriving DecidableEq, Repr

/-- The signed integer kinds. -/
inductive IntKind where
  | Int | Int8 | Int16 | Int32 | Int64
  deriving DecidableEq, Repr

/-- The unsigned integer kinds. -/
inductive UintKind where
  | Uint | Uint8 | Uint16 | Uint32 | Uint64 | Uintptr
  deriving DecidableEq, Repr

/-- The floating point kinds. -/
inductive FloatKind where
  | Float32 | Float64
  deriving DecidableEq, Repr

/-- The kinds no case of the walker's kind switch names. -/
inductive OtherKind where
  | Complex64 | Complex128 | Chan | Func | UnsafePointer
  deriving DecidableEq, Repr

def IntKind.toKind : IntKind → Kind
  | .Int => .Int | .Int8 => .Int8 | .Int16 => .Int16 | .Int32 => .Int32 | .Int64 => .Int64

def UintKind.toKind : UintKind → Kind
  | .Uint => .Uint | .Uint8 => .Uint8 | .Uint16 => .Uint16 | .Uint32 => .Uint32
  | .Uint64 => .Uint64 | .Uintptr => .Uintptr

def FloatKind.toKind : FloatKind → Kind
  | .Float32 => .Float32 | .Float64 => .Float64

def OtherKind.toKind : OtherKind → Kind
  | .Complex64 => .Complex64 | .Complex128 => .Complex128 | .Chan => .Chan
  | .Func => .Func | .UnsafePointer => .UnsafePointer

/-- What the walker observes of a `reflect.Type`: its kind, the element type of
a pointer type, and whether it is the type `[]byte`.  `basic k` is a
predeclared type of kind `k`, or a composite type of kind `k` whose components
are not recorded; `defined` is a user-defined (named) type. -/
inductive GoType where
  | basic (k : Kind)
  | ptr (elem : GoType)
  | slice (elem : GoType)
  | defined (name : String) (underlying : GoType)
  deriving DecidableEq, Repr

/-- The method `Type.Kind`. -/
def GoType.Kind : GoType → Kind
  | .basic k => k
  | .ptr _ => .Ptr
  | .slice _ => .Slice
  | .defined _ u => u.Kind

/-- The method `Type.Elem`, on a type of kind `Ptr` (it is called on no other). -/
def GoType.Elem : GoType → GoType
  | .ptr e => e
  | .defined _ u => u.Elem
  | t => t

/-- The variable `typeOfBytes = reflect.TypeOf([]byte(nil))`. -/
def typeOfBytes : GoType := .slice (.basic .Uint8)

/-- Of the dynamic type of a value, what its shape does not show: `Name` is
the name of a user-defined type (`""` for a predeclared type or an unnamed
composite type), and `IsZeroer` is `some b` when the type implements
`yaml.IsZeroer`, `b` being what its `IsZero` method returns on the value. -/
structure TypeInfo where
  Name : String
  IsZeroer : Option Bool
  deriving DecidableEq, Repr

/-- A type that is not user-defined and has no `IsZero` method. -/
def plain : TypeInfo := ⟨"", none⟩

/-- The `reflect.StructField` record, as far as the walker reads it.  `PkgPath`
is empty exactly for an exported field; `Tag` is the raw tag string.  The
field's `Type` is the type of the field's value (`Value.Type`). -/
structure StructField where
  Name : String
  PkgPath : String
  Anonymous : Bool
  Tag : String
  deriving DecidableEq, Repr

/-- A Go value as `reflect` shows it.  The constructor gives the kind; a value
of interface kind (`nilIface`, `iface`) is a struct field, element, key or
map value whose static type is an interface type.  `invalid` is the zero
`reflect.Value`.  A map lists its keys in the order `MapKeys` returns them, each
with what `MapIndex` returns for it; a struct lists its fields in declaration
order.  The float payload is the
IEEE 754 binary64 bit pattern of `Value.Float()`. -/
inductive Value where
  | invalid
  | bool (t : TypeInfo) (b : Bool)
  | int (t : TypeInfo) (k : IntKind) (i : Int)
  | uint (t : TypeInfo) (k : UintKind) (n : Nat)
  | float (t : TypeInfo) (k : FloatKind) (bits : Nat)
  | string (t : TypeInfo) (s : String)
  | other (t : TypeInfo) (k : OtherKind)
  | nilPtr (t : TypeInfo) (elem : GoType)
  | ptr (t : TypeInfo) (v : Value)
  | nilIface
  | iface (v : Value)
  | nilSlice (t : TypeInfo) (elem : GoType)
  | slice (t : TypeInfo) (elem : GoType) (items : List Value)
  | array (t : TypeInfo) (items : List Value)
  | nilMap (t : TypeInfo)
  | map (t : TypeInfo) (entries : List (Value × Value))
  | struct (t : TypeInfo) (fields : List (StructField × Value))

/-- The method `Value.Kind`. -/
def Value.Kind : Value → Kind
  | .invalid => .Invalid
  | .bool _ _ => .Bool
  | .int _ k _ => k.toKind
  | .uint _ k _ => k.toKind
  | .float _ k _ => k.toKind
  | .string _ _ => .String
  | .other _ k => k.toKind
  | .nilPtr _ _ => .Ptr
  | .ptr _ _ => .Ptr
  | .nilIface => .Interface
  | .iface _ => .Interface
  | .nilSlice _ _ => .Slice
  | .slice _ _ _ => .Slice
  | .array _ _ => .Array
  | .nilMap _ => .Map
  | .map _ _ => .Map
  | .struct _ _ => .Struct

/-- A type under its name, when it has one. -/
def TypeInfo.wrap (t : TypeInfo) (u : GoType) : GoType :=
  if t.Name = "" then u else .defined t.Name u

/-- The method `Value.Type`: for a struct field value this is the field's
declared type `field.Type`. -/
def Value.Type : Value → GoType
  | .invalid => .basic .Invalid
  | .bool t _ => t.wrap (.basic .Bool)
  | .int t k _ => t.wrap (.basic k.toKind)
  | .uint t k _ => t.wrap (.basic k.toKind)
  | .float t k _ => t.wrap (.basic k.toKind)
  | .string t _ => t.wrap (.basic .String)
  | .other t k => t.wrap (.basic k.toKind)
  | .nilPtr t e => t.wrap (.ptr e)
  | .ptr t v => t.wrap (.ptr v.Type)
  | .nilIface => .basic .Interface
  | .iface _ => .basic .Interface
  | .nilSlice t e => t.wrap (.slice e)
  | .slice t e _ => t.wrap (.slice e)
  | .array t _ => t.wrap (.basic .Array)
  | .nilMap t => t.wrap (.basic .Map)
  | .map t _ => t.wrap (.basic .Map)
  | .struct t _ => t.wrap (.basic .Struct)

/-- The method `Value.Uint` on an unsigned integer (`0` on anything else). -/
def Value.Uint : Value → Nat
  | .uint _ _ n => n
  | _ => 0

/-- The type switch `data.(type)` with `case []byte`: the bytes when the
dynamic type of the value is exactly `[]byte` (`none` inside for a nil slice).
`Value.Interface()` of a value of interface kind is the value it holds. -/
def Value.asBytes : Value → Option (Option (List Nat))
  | .nilSlice t e => if (t.wrap (.slice e)) = typeOfBytes then some none else none
  | .slice t e items =>
      if (t.wrap (.slice e)) = typeOfBytes then some (some (items.map Value.Uint)) else none
  | .iface v => v.asBytes
  | _ => none

/-- The type assertion `v.Interface().(yaml.IsZeroer)` followed by
`z.IsZero()`: `some b` when the dynamic type has the method.  Of a value of
interface kind, `Interface()` is the value it holds. -/
def Value.IsZeroer : Value → Option Bool
  | .invalid => none
  | .bool t _ => t.IsZeroer
  | .int t _ _ => t.IsZeroer
  | .uint t _ _ => t.IsZeroer
  | .float t _ _ => t.IsZeroer
  | .string t _ => t.IsZeroer
  | .other t _ => t.IsZeroer
  | .nilPtr t _ => t.IsZeroer
  | .ptr t _ => t.IsZeroer
  | .nilIface => none
  | .iface v => v.IsZeroer
  | .nilSlice t _ => t.IsZeroer
  | .slice t _ _ => t.IsZeroer
  | .array t _ => t.IsZeroer
  | .nilMap t => t.IsZeroer
  | .map t _ => t.IsZeroer
  | .struct t _ => t.IsZeroer

/-- The method `Value.IsNil` on a pointer or interface. -/
def Value.IsNil : Value → Bool
  | .nilPtr _ _ => true
  | .nilIface => true
  | _ => false

/-! ## Library functions the walker calls -/

/-- The functions of `gopkg.in/yaml.v3` and of the Go standard library that the
walker calls.  `Encode*` is `Node.Encode` at each argument type the walker
passes (the node it leaves in the receiver; `EncodeBytes none` is a nil
`[]byte`, `EncodeFloat` gets the binary64 bit pattern); `TagGet raw key` is
`reflect.StructTag(raw).Get(key)`; `ToLower` is `strings.ToLower`. -/
structure Lib where
  EncodeNil : Node
  EncodeBytes : Option (List Nat) → Node
  EncodeString : String → Node
  EncodeInt : Int → Node
  EncodeUint : Nat → Node
  EncodeFloat : Nat → Node
  EncodeBool : Bool → Node
  TagGet : String → String → String
  ToLower : String → String

/-- The loop of `strings.Split` for a one-character separator, on the
characters still to read and the reversed current piece. -/
def splitChars (sep : Char) : List Char → List Char → List (List Char)
  | [], cur => [cur.reverse]
  | c :: cs, cur =>
      if c = sep then cur.reverse :: splitChars sep cs [] else splitChars sep cs (c :: cur)

/-- The call `strings.Split(s, sep)` for a one-character separator. -/
def strings_Split (s : String) (sep : Char) : List String :=
  (splitChars sep s.data []).map String.mk

/-- The call `strings.Index(s, sep)` for a one-character separator: the position
of the first occurrence, `-1` when there is none. -/
def strings_Index (s : String) (sep : Char) : Int :=
  if sep ∈ s.data then (s.data.indexOf sep : Int) else -1

/-! ## The emptiness rule -/

/-- Panic of `Value.Interface` on a value obtained from an unexported field. -/
def roPanic : String :=
  "reflect.Value.Interface: cannot return value obtained from unexported field or method"

/-- Panic of `Value.Interface` on the zero `reflect.Value`. -/
def zeroValuePanic : String := "reflect: call of reflect.Value.Interface on zero Value"

/-- Panic of a field assignment through a nil `*yaml.Node`. -/
def nilDerefPanic : String := "runtime error: invalid memory address or nil pointer dereference"

/-- Panic of the default case of the kind switch. -/
def cannotMarshalPanic : String := "cannot marshal type"

/-- The first statements of `isZero`, before the kind switch whose result is
`r`: `v.Interface()` panics on a read-only value; when the dynamic type
implements `yaml.IsZeroer` the answer is `true` for a nil pointer or interface
and the answer of the `IsZero` method otherwise. -/
def viaIsZeroer (ro : Bool) (v : Value) (r : Result Bool) : Result Bool :=
  if ro then .panic roPanic
  else
    match v.IsZeroer with
    | some z =>
        if (v.Kind = .Ptr ∨ v.Kind = .Interface) ∧ v.IsNil = true then .ok true else .ok z
    | none => r

mutual
/-- The function `isZero(v reflect.Value) bool`.  `ro` says that `v` was obtained
through an unexported field, in which case `v.Interface()` panics, as it does on
the zero `reflect.Value`.  Without a custom `IsZero` the answer goes by kind,
and kinds the switch does not list (arrays among them) are never empty. -/
def isZero (ro : Bool) : Value → Result Bool
  | .invalid => .panic zeroValuePanic
  | .string t s => viaIsZeroer ro (.string t s) (.ok (decide (s.length = 0)))
  | .nilIface => viaIsZeroer ro .nilIface (.ok true)
  | .iface v => viaIsZeroer ro (.iface v) (.ok false)
  | .nilPtr t e => viaIsZeroer ro (.nilPtr t e) (.ok true)
  | .ptr t v => viaIsZeroer ro (.ptr t v) (.ok false)
  | .nilSlice t e => viaIsZeroer ro (.nilSlice t e) (.ok true)
  | .slice t e items => viaIsZeroer ro (.slice t e items) (.ok (decide (items.length = 0)))
  | .nilMap t => viaIsZeroer ro (.nilMap t) (.ok true)
  | .map t entries => viaIsZeroer ro (.map t entries) (.ok (decide (entries.length = 0)))
  | .int t k i => viaIsZeroer ro (.int t k i) (.ok (decide (i = 0)))
  | .float t k bits => viaIsZeroer ro (.float t k bits) (.ok (decide (bits % 2 ^ 63 = 0)))
  | .uint t k n => viaIsZeroer ro (.uint t k n) (.ok (decide (n = 0)))
  | .bool t b => viaIsZeroer ro (.bool t b) (.ok (!b))
  | .struct t fields => viaIsZeroer ro (.struct t fields) (isZeroFields fields)
  | .array t items => viaIsZeroer ro (.array t items) (.ok false)
  | .other t k => viaIsZeroer ro (.other t k) (.ok false)
/-- The loop `for i := v.NumField() - 1; i >= 0; i--` of `isZero`: the fields
are examined from the last to the first, so the fields after the head of the
list are examined before it.  An exported field of a value that is not
read-only is not read-only. -/
def isZeroFields : List (StructField × Value) → Result Bool
  | [] => .ok true
  | (field, value) :: rest =>
      match isZeroFields rest with
      | .ok true =>
          if field.PkgPath ≠ "" then .ok true
          else
            match isZero false value with
            | .ok z => .ok z
            | .error m => .error m
            | .panic m => .panic m
      | .ok false => .ok false
      | .error m => .error m
      | .panic m => .panic m
end

/-! ## Field directives -/

/-- Lines 99 to 102: the value of the `yaml` key of the field's tag, or the raw
tag when that is empty and the raw tag has no colon. -/
def fieldTag (L : Lib) (field : StructField) : String :=
  if L.TagGet field.Tag "yaml" = "" ∧ strings_Index field.Tag ':' < 0 then field.Tag
  else L.TagGet field.Tag "yaml"

/-- What the tag of a field says: the name part and the two flags. -/
structure Directive where
  tag : String
  inline : Bool
  omit_empty : Bool
  deriving DecidableEq, Repr

/-- The loop `for _, flag := range fields[1:]` with its switch, on the current
`inline` and `omit_empty`; `none` is the return of the `flow` case. -/
def scanFlags : List String → Bool → Bool → Option (Bool × Bool)
  | [], inline, omit_empty => some (inline, omit_empty)
  | flag :: rest, inline, omit_empty =>
      if flag = "omitempty" then scanFlags rest inline true
      else if flag = "flow" then none
      else if flag = "inline" then scanFlags rest true omit_empty
      else scanFlags rest inline omit_empty

/-- Lines 106 to 123: split the tag at the commas and, when there is more than
one piece, read the flags and keep the first piece as the name; `none` is the
error return of the `flow` flag. -/
def parseTag (tag : String) : Option Directive :=
  if (strings_Split tag ',').length > 1 then
    match scanFlags (strings_Split tag ',').tail false false with
    | none => none
    | some (inline, omit_empty) => some ⟨(strings_Split tag ',').headD "", inline, omit_empty⟩
  else some ⟨tag, false, false⟩

/-- The loop `for ftype.Kind() == reflect.Ptr { ftype = ftype.Elem() }`. -/
def derefType : GoType → GoType
  | .basic k => .basic k
  | .ptr e => derefType e
  | .slice e => .slice e
  | .defined n u => if u.Kind = .Ptr then derefType u else .defined n u

/-- The switch on `field.Type.Kind()` of the inline branch: a map type, or a
struct type, or a pointer type whose chain of pointers ends in a struct type. -/
def inlineAllowed (ftype : GoType) : Bool :=
  match ftype.Kind with
  | .Map => true
  | .Struct => decide ((derefType ftype).Kind = .Struct)
  | .Ptr => decide ((derefType ftype).Kind = .Struct)
  | _ => false

def flowError : String := "not implement flow command"

def inlineError : String := "option ,inline may only be used on a struct or map field"

/-! ## The walker -/

/-- The statement `data = in.Interface()`: a panic on a read-only value,
otherwise the rest of the function. -/
def viaInterface {α : Type} (ro : Bool) (r : Result α) : Result α :=
  if ro then .panic roPanic else r

/-- The mapping node of the map and struct cases. -/
def mappingNode (content : List Node) : Node :=
  .mk .MappingNode 0 mapTag "" "" content "" "" ""

/-- The sequence node of the slice and array case. -/
def sequenceNode (content : List Node) : Node :=
  .mk .SequenceNode 0 seqTag "" "" content "" "" ""

mutual
/-- The function `ToYamlNode(data interface{}) (*yaml.Node, error)` on a
`reflect.Value` (`ro`: obtained through an unexported field); a plain value
`x` is `reflect.ValueOf(x)`, which is not read-only.  A nil pointer is the
recursive call on `in.Elem()`, the zero `reflect.Value`, which encodes nil. -/
def ToYamlNode (L : Lib) (ro : Bool) : Value → Result Node
  | .invalid => .ok L.EncodeNil
  | .nilIface => viaInterface ro (.ok L.EncodeNil)
  | .iface v => viaInterface ro
      (match v.asBytes with
       | some b => .ok (L.EncodeBytes b)
       | none => ToYamlNode L ro v)
  | .nilMap _ => viaInterface ro (.ok (mappingNode []))
  | .map _ entries => viaInterface ro
      (match ToYamlNodeEntries L ro entries [] with
       | .ok content => .ok (mappingNode content)
       | .error m => .error m
       | .panic m => .panic m)
  | .nilPtr _ _ => viaInterface ro (.ok L.EncodeNil)
  | .ptr _ v => viaInterface ro (ToYamlNode L ro v)
  | .struct _ fields => viaInterface ro
      (match ToYamlNodeFields L fields [] with
       | .ok content => .ok (mappingNode content)
       | .error m => .error m
       | .panic m => .panic m)
  | .nilSlice t e => viaInterface ro
      (match (Value.nilSlice t e).asBytes with
       | some b => .ok (L.EncodeBytes b)
       | none =>
          if (Value.nilSlice t e).Type = typeOfBytes then .ok (L.EncodeBytes none)
          else .ok (sequenceNode []))
  | .slice t e items => viaInterface ro
      (match (Value.slice t e items).asBytes with
       | some b => .ok (L.EncodeBytes b)
       | none =>
          if (Value.slice t e items).Type = typeOfBytes then
            .ok (L.EncodeBytes (some (items.map Value.Uint)))
          else
            match ToYamlNodeList L ro items [] with
            | .ok content => .ok (sequenceNode content)
            | .error m => .error m
            | .panic m => .panic m)
  | .array t items => viaInterface ro
      (if (Value.array t items).Type = typeOfBytes then
         .ok (L.EncodeBytes (some (items.map Value.Uint)))
       else
         match ToYamlNodeList L ro items [] with
         | .ok content => .ok (sequenceNode content)
         | .error m => .error m
         | .panic m => .panic m)
  | .string _ s => viaInterface ro (.ok (L.EncodeString s))
  | .int _ _ i => viaInterface ro (.ok (L.EncodeInt i))
  | .uint _ _ n => viaInterface ro (.ok (L.EncodeUint n))
  | .float _ _ bits => viaInterface ro (.ok (L.EncodeFloat bits))
  | .bool _ b => viaInterface ro (.ok (L.EncodeBool b))
  | .other _ _ => viaInterface ro (.panic cannotMarshalPanic)
/-- The loop `for _, k := range keys` of the map case, on the entries still to
visit and the `node.Content` built so far. -/
def ToYamlNodeEntries (L : Lib) (ro : Bool) : List (Value × Value) → List Node → Result (List Node)
  | [], content => .ok content
  | (k, v) :: rest, content =>
      match ToYamlNode L ro k with
      | .error m => .error m
      | .panic m => .panic m
      | .ok key_child_node =>
          match ToYamlNode L ro v with
          | .error m => .error m
          | .panic m => .panic m
          | .ok value_child_node =>
              ToYamlNodeEntries L ro rest (content ++ [key_child_node, value_child_node])
/-- The loop `for i := 0; i < n; i++` of the slice and array case. -/
def ToYamlNodeList (L : Lib) (ro : Bool) : List Value → List Node → Result (List Node)
  | [], content => .ok content
  | v :: rest, content =>
      match ToYamlNode L ro v with
      | .error m => .error m
      | .panic m => .panic m
      | .ok child_node => ToYamlNodeList L ro rest (content ++ [child_node])
/-- The loop `for i := 0; i != n; i++` of the struct case, on the fields still
to visit and the `node.Content` built so far.  `in.Field(i)` is read-only
exactly when the field is unexported.  The key node is `ToYamlNode(tag)` on a
string, which is `Encode` of it.  The error of `ToYamlNode(value)` in the last
branch is not looked at: the result is nil then and the assignment
`value_child_node.HeadComment = head_comment` panics. -/
def ToYamlNodeFields (L : Lib) : List (StructField × Value) → List Node → Result (List Node)
  | [], content => .ok content
  | (field, value) :: rest, content =>
      if field.PkgPath ≠ "" ∧ field.Anonymous = false then ToYamlNodeFields L rest content
      else if fieldTag L field = "-" then ToYamlNodeFields L rest content
      else
        match parseTag (fieldTag L field) with
        | none => .error flowError
        | some d =>
            match (if d.omit_empty = true then isZero (decide (field.PkgPath ≠ "")) value
                   else .ok false) with
            | .panic m => .panic m
            | .error m => .error m
            | .ok true => ToYamlNodeFields L rest content
            | .ok false =>
                if d.inline = true then
                  if inlineAllowed value.Type = true then
                    match ToYamlNode L (decide (field.PkgPath ≠ "")) value with
                    | .error m => .error m
                    | .panic m => .panic m
                    | .ok child_node => ToYamlNodeFields L rest (content ++ child_node.Content)
                  else .error inlineError
                else
                  match ToYamlNode L (decide (field.PkgPath ≠ "")) value with
                  | .error _ => .panic nilDerefPanic
                  | .panic m => .panic m
                  | .ok value_child_node =>
                      ToYamlNodeFields L rest
                        (content ++
                          [L.EncodeString
                              (if d.tag = "" then L.ToLower field.Name else d.tag),
                           value_child_node.setComments
                              (L.TagGet field.Tag "head_comment")
                              (L.TagGet field.Tag "foot_comment")
                              (L.TagGet field.Tag "line_comment")])
end

/-! ## An instance of the library functions -/

/-- The double quote character. -/
def dquote : Char := Char.ofNat 34

/-- The backslash character. -/
def backslash : Char := Char.ofNat 92

/-- A character of a tag key: above the space, and none of colon, double quote
and delete. -/
def isKeyChar (c : Char) : Bool :=
  decide (c.toNat > 32) && (c != ':') && (c != dquote) && (c.toNat != 127)

/-- Scan of a quoted tag value after its opening quote: the raw characters up
to the closing quote, a backslash taking the next character with it, and the
rest of the tag after the closing quote; `none` when the quote is not closed. -/
def scanQuoted : List Char → List Char → Option (List Char × List Char)
  | [], _ => none
  | c :: rest, acc =>
      if c = dquote then some (acc.reverse, rest)
      else if c = backslash then
        match rest with
        | [] => none
        | d :: rest2 => scanQuoted rest2 (d :: c :: acc)
      else scanQuoted rest (c :: acc)

/-- Removal of the escapes of a quoted tag value.  The one-letter escapes are
handled; a numeric escape, an unknown escape or a raw line feed gives `none`. -/
def unquoteChars : List Char → Option (List Char)
  | [] => some []
  | c :: rest =>
      if c = backslash then
        match rest with
        | [] => none
        | d :: rest2 =>
            let e : Option Char :=
              if d = 'a' then some (Char.ofNat 7)
              else if d = 'b' then some (Char.ofNat 8)
              else if d = 'f' then some (Char.ofNat 12)
              else if d = 'n' then some (Char.ofNat 10)
              else if d = 'r' then some (Char.ofNat 13)
              else if d = 't' then some (Char.ofNat 9)
              else if d = 'v' then some (Char.ofNat 11)
              else if d = backslash then some backslash
              else if d = dquote then some dquote
              else none
            match e, unquoteChars rest2 with
            | some x, some r => some (x :: r)
            | _, _ => none
      else if c = Char.ofNat 10 then none
      else (unquoteChars rest).map (fun r => c :: r)

/-- The loop of a tag lookup: skip spaces, read `key:"value"`, return the
unquoted value at the wanted key, go on otherwise, stop at the first malformed
pair.  Each round consumes at least three characters, so a fuel of the length
of the tag plus one never runs out. -/
def tagLookup : Nat → List Char → List Char → Option (List Char)
  | 0, _, _ => none
  | fuel + 1, key, tag =>
      match (tag.dropWhile (fun c => c == ' ')).span isKeyChar with
      | (name, rest) =>
          match rest with
          | c1 :: c2 :: rest2 =>
              if name ≠ [] ∧ c1 = ':' ∧ c2 = dquote then
                match scanQuoted rest2 [] with
                | none => none
                | some (body, after) =>
                    if key = name then unquoteChars body else tagLookup fuel key after
              else none
          | _ => none

/-- Modelled from the spec: the tag lookup of the Go standard library
(`reflect.StructTag.Get`) is not part of the repository.  The metadata is a
list of `key:"value"` pairs separated by spaces (section 6: a primary key and
three annotation keys, each with its own text); the value of an absent key is
the empty string. -/
def specTagGet (raw key : String) : String :=
  match tagLookup (raw.data.length + 1) key.data raw.data with
  | some v => String.mk v
  | none => ""

/-- Modelled from the spec: a scalar node, as the external serializer's
encoder leaves it: scalar kind, the tag of the shape, the text of the value,
no children and empty annotation slots (sections 3 and 4.1).  The presentation
style, of which the spec says nothing, is left at zero. -/
def scalarNode (tag value : String) : Node :=
  .mk .ScalarNode 0 tag value "" [] "" "" ""

/-- Modelled from the spec: the library functions the walker calls, none of
which is part of the repository.  Scalars encode to `scalarNode` with the
canonical tag and text (section 4.1, items 1, 2 and 7): decimal numerals for
integers, `true` and `false`, `null` for the absent value; the text of a float
and of a byte sequence is left to the two arguments.  `ToLower` lowers the
ASCII letters. -/
def specLib (floatText : Nat → String) (binaryText : Option (List Nat) → String) : Lib :=
  ⟨scalarNode nullTag "null",
   fun b => scalarNode binaryTag (binaryText b),
   fun s => scalarNode strTag s,
   fun i => scalarNode intTag (toString i),
   fun n => scalarNode intTag (toString n),
   fun bits => scalarNode floatTag (floatText bits),
   fun b => scalarNode boolTag (if b then "true" else "false"),
   specTagGet,
   fun s => String.mk (s.data.map Char.toLower)⟩

/-- The record `Test` of `examples/quickstart.go` with the values of `main`:
`Name: "a"`, `Nickname: "b"`, `Age: 0`. -/
def quickstartTest : Value :=
  .struct ⟨"Test", none⟩
    [(⟨"Name", "", false, "yaml:\"name\" head_comment:\"head comment\""⟩, .string plain "a"),
     (⟨"Nickname", "", false, "yaml:\"nickname\" line_comment:\"line comment\""⟩,
        .string plain "b"),
     (⟨"Age", "", false, "yaml:\"age\" foot_comment:\"foot comment\""⟩, .int plain .Int 0)]

/-! ## Derived notions used to state the properties -/

/-- Sequencing of outcomes: go on with the value, or stop with the error or
the panic. -/
def Result.bind {α β : Type} (r : Result α) (f : α → Result β) : Result β :=
  match r with
  | .ok a => f a
  | .error m => .error m
  | .panic m => .panic m

/-- The flags of a tag: the pieces after the first comma-separated piece. -/
def tagFlags (tag : String) : List String := (strings_Split tag ',').tail

/-- The name a directly emitted field gets: the name part of the tag, or the
lower-cased identifier when that is empty. -/
def keyName (L : Lib) (field : StructField) (d : Directive) : String :=
  if d.tag = "" then L.ToLower field.Name else d.tag

/-- What one round of the struct loop appends to `node.Content`, or the error or
panic it stops the loop with: one round of `ToYamlNodeFields`, with the
content built so far left out. -/
def fieldContribution (L : Lib) (field : StructField) (value : Value) : Result (List Node) :=
  if field.PkgPath ≠ "" ∧ field.Anonymous = false then .ok []
  else if fieldTag L field = "-" then .ok []
  else
    match parseTag (fieldTag L field) with
    | none => .error flowError
    | some d =>
        match (if d.omit_empty = true then isZero (decide (field.PkgPath ≠ "")) value
               else .ok false) with
        | .panic m => .panic m
        | .error m => .error m
        | .ok true => .ok []
        | .ok false =>
            if d.inline = true then
              if inlineAllowed value.Type = true then
                match ToYamlNode L (decide (field.PkgPath ≠ "")) value with
                | .error m => .error m
                | .panic m => .panic m
                | .ok child_node => .ok child_node.Content
              else .error inlineError
            else
              match ToYamlNode L (decide (field.PkgPath ≠ "")) value with
              | .error _ => .panic nilDerefPanic
              | .panic m => .panic m
              | .ok value_child_node =>
                  .ok [L.EncodeString (keyName L field d),
                       value_child_node.setComments
                          (L.TagGet field.Tag "head_comment")
                          (L.TagGet field.Tag "foot_comment")
                          (L.TagGet field.Tag "line_comment")]

/-! ## Concrete records -/

/-- The instance of `specLib` of the concrete evaluations; none of them
encodes a float or a byte sequence, whose texts are left empty here. -/
def exampleLib : Lib := specLib (fun _ => "") (fun _ => "")

/-- A field declaration `Name T` followed by the raw tag, exported. -/
def exported (name tag : String) : StructField := ⟨name, "", false, tag⟩

/-- The record `Inner{X: 0}` of `type Inner struct { X int "yaml:\"x,flow\"" }`. -/
def flowInner : Value :=
  .struct ⟨"Inner", none⟩ [(exported "X" "yaml:\"x,flow\"", .int plain .Int 0)]

/-- The record `Outer{In: Inner{X: 0}}` of `type Outer struct { In Inner }`. -/
def flowOuter : Value :=
  .struct ⟨"Outer", none⟩ [(exported "In" "", flowInner)]

/-- The map `map[string]Inner{"k": Inner{X: 0}}`. -/
def flowInMap : Value := .map plain [(.string plain "k", flowInner)]

/-- The slice `[]Inner{Inner{X: 0}}`. -/
def flowInSlice : Value := .slice plain (.defined "Inner" (.basic .Struct)) [flowInner]

/-- The record `struct { In Inner "yaml:\",inline\"" }{In: Inner{X: 0}}`. -/
def flowInline : Value :=
  .struct plain [(exported "In" "yaml:\",inline\"", flowInner)]

/-- The record `struct { C chan int; X int "yaml:\"x,flow\"" }{C: nil, X: 0}`. -/
def chanThenFlow : Value :=
  .struct plain [(exported "C" "", .other plain .Chan),
                 (exported "X" "yaml:\"x,flow\"", .int plain .Int 0)]

/-- The record `struct { X int "yaml:\"-,omitempty\"" }{X: 1}`. -/
def dashOmitempty : Value :=
  .struct plain [(exported "X" "yaml:\"-,omitempty\"", .int plain .Int 1)]

/-- The record `struct { X int "yaml:\"-,flow\"" }{X: 1}`. -/
def dashFlow : Value :=
  .struct plain [(exported "X" "yaml:\"-,flow\"", .int plain .Int 1)]

/-- The record `struct { X int "yaml:\"-,inline\"" }{X: 1}`. -/
def dashInline : Value :=
  .struct plain [(exported "X" "yaml:\"-,inline\"", .int plain .Int 1)]

/-- The record `struct { A int "yaml:\"a\""; X int "yaml:\"-\""; B int "yaml:\"b\"" }{1, 2, 3}`,
as the fields before `X`, the field `X` and the fields after it. -/
def dashPre : List (StructField × Value) := [(exported "A" "yaml:\"a\"", .int plain .Int 1)]

def dashField : StructField := exported "X" "yaml:\"-\""

def dashPost : List (StructField × Value) := [(exported "B" "yaml:\"b\"", .int plain .Int 3)]

/-- The field `X string` with the tag `yaml:"x,omitempty"`. -/
def omitField : StructField := exported "X" "yaml:\"x,omitempty\""

/-- The record `Inner{X: 0}` of `type Inner struct { X int }`. -/
def zeroInner : Value := .struct ⟨"Inner", none⟩ [(exported "X" "", .int plain .Int 0)]

/-- The record `struct { In Inner "yaml:\",inline,omitempty\"" }{In: Inner{X: 0}}`. -/
def inlineOmitZero : Value :=
  .struct plain [(exported "In" "yaml:\",inline,omitempty\"", zeroInner)]

/-- The record `struct { in Inner "yaml:\",inline\"" }{in: Inner{X: 0}}`, whose
field is unexported and not anonymous. -/
def inlinePrivate : Value :=
  .struct plain [(⟨"in", "main", false, "yaml:\",inline\""⟩, zeroInner)]

/-- The field `M map[string]int` with the tag `yaml:",inline"`. -/
def inlineField : StructField := exported "M" "yaml:\",inline\""

/-- The map `map[string]int{"k": 2}`. -/
def smallMap : Value := .map plain [(.string plain "k", .int plain .Int 2)]

/-- The record `struct { X int "yaml:\",inline,omitempty\"" }{X: 0}`. -/
def inlineOmitScalar : Value :=
  .struct plain [(exported "X" "yaml:\",inline,omitempty\"", .int plain .Int 0)]

/-- The record `struct { P *Inner "yaml:\",inline\"" }{P: nil}`. -/
def inlineNilPtr : Value :=
  .struct plain [(exported "P" "yaml:\",inline\"", .nilPtr plain (.defined "Inner" (.basic .Struct)))]

/-- The record `struct { M *map[string]int "yaml:\",inline\"" }` with `M`
pointing to `map[string]int{"k": 2}`. -/
def inlinePtrMap : Value :=
  .struct plain [(exported "M" "yaml:\",inline\"", .ptr plain smallMap)]

/-- The record `struct { I interface{} "yaml:\",inline\"" }{I: Inner{X: 0}}`. -/
def inlineIface : Value :=
  .struct plain [(exported "I" "yaml:\",inline\"", .iface zeroInner)]

/-- The record `inner{X: 0}` of `type inner struct { X int }`. -/
def innerValue : Value := .struct ⟨"inner", none⟩ [(exported "X" "", .int plain .Int 0)]

/-- The record `Outer{inner{X: 0}}` of `type Outer struct { inner }` in package
`main`: the embedded field is anonymous and unexported. -/
def embeddedUnexported : Value :=
  .struct ⟨"Outer", none⟩ [(⟨"inner", "main", true, ""⟩, innerValue)]

/-- The record `Outer{Inner{X: 0}}` of `type Outer struct { Inner }`: the
embedded field is anonymous and exported. -/
def embeddedExported : Value :=
  .struct ⟨"Outer", none⟩ [(⟨"Inner", "", true, ""⟩, zeroInner)]

/-- The record `struct { x int }{x: 1}`: the field is unexported and not
anonymous. -/
def privateField : Value :=
  .struct plain [(⟨"x", "main", false, ""⟩, .int plain .Int 1)]

/-- The field `X *string` with the three annotation keys. -/
def annotatedField : StructField :=
  exported "X" "yaml:\"x\" head_comment:\"h\" line_comment:\"l\" foot_comment:\"f\""

/-! ## Key names -/

/-- The part of a tag value before its first comma: the whole value when it has
no comma. -/
def firstPart (s : String) : String := (strings_Split s ',').headD ""

/-- The name of a key as the claim on key names words it: the part before the
first comma of the primary metadata value when that part is non-empty;
otherwise, when the primary key is absent (its value is empty) and the raw
metadata has no colon, the part before the first comma of the raw metadata;
otherwise the lower-cased identifier. -/
def statedKeyName (L : Lib) (field : StructField) : String :=
  if firstPart (L.TagGet field.Tag "yaml") ≠ "" then firstPart (L.TagGet field.Tag "yaml")
  else if L.TagGet field.Tag "yaml" = "" ∧ strings_Index field.Tag ':' < 0 then
    firstPart field.Tag
  else L.ToLower field.Name

/-- The name of a key as `statedKeyName` words it, with the raw metadata used
only when its part before the first comma is non-empty. -/
def resolvedKeyName (L : Lib) (field : StructField) : String :=
  if firstPart (L.TagGet field.Tag "yaml") ≠ "" then firstPart (L.TagGet field.Tag "yaml")
  else if L.TagGet field.Tag "yaml" = "" ∧ strings_Index field.Tag ':' < 0 ∧
      firstPart field.Tag ≠ "" then
    firstPart field.Tag
  else L.ToLower field.Name

/-- The field `X int` with the raw tag `x,omitempty` (no key, no colon). -/
def legacyField : StructField := exported "X" "x,omitempty"

/-! ## Byte sequences and references -/

/-- The byte `b` as a value of type `byte`. -/
def byteValue (b : Nat) : Value := .uint plain .Uint8 b

/-- The slice `[]byte{1, 2}`. -/
def plainBytes : Value := .slice plain (.basic .Uint8) [byteValue 1, byteValue 2]

/-- The value `Blob{1, 2}` of `type Blob []byte`. -/
def namedBytes : Value := .slice ⟨"Blob", none⟩ (.basic .Uint8) [byteValue 1, byteValue 2]

/-- The array `[2]byte{1, 2}`. -/
def byteArray : Value := .array plain [byteValue 1, byteValue 2]

/-- A chain of pointers, of the types listed, ending in `v`. -/
def ptrChain : List TypeInfo → Value → Value
  | [], v => v
  | t :: ts, v => .ptr t (ptrChain ts v)

/-! ## Sequences and maps -/

/-- The children of a mapping, from its pairs of key node and value node. -/
def flattenPairs : List (Node × Node) → List Node
  | [] => []
  | (k, v) :: rest => k :: v :: flattenPairs rest

/-- The slice `[]interface{}{1, "a", nil}`. -/
def mixedSlice : Value :=
  .slice plain (.basic .Interface)
    [.iface (.int plain .Int 1), .iface (.string plain "a"), .nilIface]

/-- The map `map[Inner]int{Inner{X: 0}: 7}` with a struct as key. -/
def structKeyMap : Value := .map plain [(zeroInner, .int plain .Int 7)]

/-! ## Scalars and unsupported shapes -/

/-- The binary64 bit pattern of the float32 nearest to one tenth, widened to
float64: what `Value.Float()` returns on `float32(0.1)`, the float64
`0.10000000149011612`. -/
def tenthAsFloat32 : Nat := 0x3FB99999A0000000

/-- The record `struct { C chan int "yaml:\",inline\"" }{C: nil}`. -/
def chanInline : Value :=
  .struct plain [(exported "C" "yaml:\",inline\"", .other plain .Chan)]

/-- The slice `[]interface{}{Inner{X: 0}, make(chan int)}` with the `Inner` of
`flowInner`, whose field lists `flow`. -/
def flowThenChan : Value :=
  .slice plain (.basic .Interface) [.iface flowInner, .iface (.other plain .Chan)]

/-- The field `C chan int`, without metadata. -/
def chanField : StructField := exported "C" ""

/-! ## Emptiness -/

/-- The array `[0]int{}`. -/
def emptyArray : Value := .array plain []

/-- The record `struct { A string; b int; C []int }{A: "", b: 5, C: nil}`, whose
second field is unexported, as its list of fields. -/
def emptyRecordFields : List (StructField × Value) :=
  [(exported "A" "", .string plain ""),
   (⟨"b", "main", false, ""⟩, .int plain .Int 5),
   (exported "C" "", .nilSlice plain (.basic .Int))]

/-! ## Pairs of a mapping -/

mutual
/-- Every mapping node of the tree has an even number of children. -/
def Node.evenTree : Node → Bool
  | .mk k _ _ _ _ c _ _ _ =>
      (decide (k ≠ .MappingNode) || decide (c.length % 2 = 0)) && evenTrees c
/-- Every mapping node of every tree of the list has an even number of children. -/
def evenTrees : List Node → Bool
  | [] => true
  | n :: ns => n.evenTree && evenTrees ns
end

/-- What the pairing of the children needs of the encoder: in every node it
leaves, every mapping node has an even number of children, and the node it
leaves for nil has an even number of children. -/
def Lib.evenOutputs (L : Lib) : Prop :=
  L.EncodeNil.evenTree = true ∧ L.EncodeNil.Content.length % 2 = 0 ∧
  (∀ b, (L.EncodeBytes b).evenTree = true) ∧ (∀ s, (L.EncodeString s).evenTree = true) ∧
  (∀ i, (L.EncodeInt i).evenTree = true) ∧ (∀ n, (L.EncodeUint n).evenTree = true) ∧
  (∀ bits, (L.EncodeFloat bits).evenTree = true) ∧ (∀ b, (L.EncodeBool b).evenTree = true)

/-- A declared type that is a map type, or that ends in a struct type after its
pointers. -/
def inlineShape (ftype : GoType) : Bool :=
  decide ((derefType ftype).Kind = .Struct) || decide (ftype.Kind = .Map)

/-- The record `struct { M map[string]int; N Nested; P *Inner }` with all three
fields marked inline, `M` empty, `P` nil and `N` the record
`Nested{A: 1, In: Inner{X: 0}}` of `type Nested struct { A int; In Inner }`
whose `In` is marked inline too. -/
def inlineMix : Value :=
  .struct plain
    [(exported "M" "yaml:\",inline\"", .map plain []),
     (exported "N" "yaml:\",inline\"",
        .struct ⟨"Nested", none⟩
          [(exported "A" "", .int plain .Int 1), (exported "In" "yaml:\",inline\"", zeroInner)]),
     (exported "P" "yaml:\",inline\"", .nilPtr plain (.defined "Inner" (.basic .Struct)))]

/-- The record `struct { A int "yaml:\"a\""; B int "yaml:\"a\"" }{1, 2}`: two
fields with the same name. -/
def dupNames : Value :=
  .struct plain [(exported "A" "yaml:\"a\"", .int plain .Int 1),
                 (exported "B" "yaml:\"a\"", .int plain .Int 2)]

/-- The record `struct { A int "yaml:\"a\""; M map[string]int "yaml:\",inline\"" }`
with `A` one and `M` the map `map[string]int{"a": 2}`. -/
def dupInline : Value :=
  .struct plain [(exported "A" "yaml:\"a\"", .int plain .Int 1),
                 (exported "M" "yaml:\",inline\"",
                    .map plain [(.string plain "a", .int plain .Int 2)])]

/-! ## A map from its stored entries -/

/-- The binary64 bit pattern is a NaN: the exponent bits are all ones and the
fraction is not zero. -/
def isNaN (bits : Nat) : Bool :=
  decide ((bits / 2 ^ 52) % 2 ^ 11 = 2047) && decide (bits % 2 ^ 52 ≠ 0)

mutual
/-- The comparison `k == k` of Go on a map key: false for a NaN float, for an
interface holding, an array containing, or a struct with a non-blank field
holding a key that is not equal to itself; true otherwise.  A complex number
has no payload here and counts as equal to itself: as a key it makes the
walker panic on line 75, before `MapIndex` is called on line 80. -/
def selfEqual : Value → Bool
  | .invalid => true
  | .bool _ _ => true
  | .int _ _ _ => true
  | .uint _ _ _ => true
  | .float _ _ bits => !isNaN bits
  | .string _ _ => true
  | .other _ _ => true
  | .nilPtr _ _ => true
  | .ptr _ _ => true
  | .nilIface => true
  | .iface v => selfEqual v
  | .nilSlice _ _ => true
  | .slice _ _ _ => true
  | .array _ items => selfEqualList items
  | .nilMap _ => true
  | .map _ _ => true
  | .struct _ fields => selfEqualFields fields
/-- Every element is equal to itself. -/
def selfEqualList : List Value → Bool
  | [] => true
  | v :: rest => selfEqual v && selfEqualList rest
/-- Every field that is not the blank field `_` is equal to itself. -/
def selfEqualFields : List (StructField × Value) → Bool
  | [] => true
  | (field, value) :: rest =>
      (decide (field.Name = "_") || selfEqual value) && selfEqualFields rest
end

/-- The call `in.MapIndex(k)` for a key `k` that `MapKeys` returned, stored with
the value `v`: the value, unless the key is not equal to itself, in which case
the lookup finds nothing and returns the zero `reflect.Value`. -/
def MapIndex (k v : Value) : Value := if selfEqual k = true then v else .invalid

/-- The non-nil map with the stored entries `(k, v)`, listed in the order
`MapKeys` returns the keys, as `reflect` shows it: each key with what
`MapIndex` returns for it. -/
def mapOf (t : TypeInfo) (stored : List (Value × Value)) : Value :=
  .map t (stored.map (fun e => (e.1, MapIndex e.1 e.2)))

/-- The binary64 bit pattern of the NaN that `math.NaN()` returns. -/
def nanBits : Nat := 0x7FF8000000000001

/-- The map `map[float64]string{math.NaN(): "a"}`. -/
def nanKeyMap : Value :=
  mapOf plain [(.float plain .Float64 nanBits, .string plain "a")]

/-- The entries of `map[int]string{1: "a", 2: "b"}`, in the order visited. -/
def intKeyEntries : List (Value × Value) :=
  [(.int plain .Int 1, .string plain "a"), (.int plain .Int 2, .string plain "b")]

/-! ## Basic facts about the struct loop -/

theorem Result.bind_ok {α β : Type} (a : α) (f : α → Result β) :
    (Result.ok a).bind f = f a := rfl

theorem Result.bind_error {α β : Type} (m : String) (f : α → Result β) :
    (Result.error m : Result α).bind f = .error m := rfl

theorem Result.bind_panic {α β : Type} (m : String) (f : α → Result β) :
    (Result.panic m : Result α).bind f = .panic m := rfl

/-- One round of the struct loop is the field's contribution followed by the
rest of the loop. -/
theorem ToYamlNodeFields_cons (L : Lib) (field : StructField) (value : Value)
    (rest : List (StructField × Value)) (content : List Node) :
    ToYamlNodeFields L ((field, value) :: rest) content =
      (fieldContribution L field value).bind
        (fun ns => ToYamlNodeFields L rest (content ++ ns)) := by
  rw [ToYamlNodeFields]
  unfold fieldContribution keyName
  by_cases h1 : field.PkgPath ≠ "" ∧ field.Anonymous = false
  · simp [h1, Result.bind]
  · by_cases h2 : fieldTag L field = "-"
    · simp [h1, h2, Result.bind]
    · simp only [h1, h2, if_false]
      generalize parseTag (fieldTag L field) = p
      cases p with
      | none => rfl
      | some d =>
        dsimp only
        generalize (if d.omit_empty = true then isZero (decide (field.PkgPath ≠ "")) value
          else Result.ok false) = z
        cases z with
        | panic m => rfl
        | error m => rfl
        | ok b =>
          cases b with
          | true => simp [Result.bind]
          | false =>
            dsimp only
            by_cases h3 : d.inline = true
            · by_cases h4 : inlineAllowed value.Type = true
              · simp only [h3, h4, if_true]
                generalize ToYamlNode L (decide (field.PkgPath ≠ "")) value = r
                cases r <;> rfl
              · simp only [h3, h4, if_true, if_false]
                rfl
            · simp only [h3, if_false]
              generalize ToYamlNode L (decide (field.PkgPath ≠ "")) value = r
              cases r <;> rfl

/-- The content built so far is a prefix of the result of the struct loop: the
loop run on it is the loop run on the empty content, appended to it. -/
theorem ToYamlNodeFields_acc (L : Lib) (fs : List (StructField × Value)) (content : List Node) :
    ToYamlNodeFields L fs content =
      (ToYamlNodeFields L fs []).bind (fun r => .ok (content ++ r)) := by
  induction fs generalizing content with
  | nil => simp [ToYamlNodeFields, Result.bind]
  | cons x rest ih =>
    obtain ⟨field, value⟩ := x
    rw [ToYamlNodeFields_cons, ToYamlNodeFields_cons L field value rest []]
    cases fieldContribution L field value with
    | error m => rfl
    | panic m => rfl
    | ok ns =>
      simp only [Result.bind_ok, List.nil_append]
      rw [ih (content ++ ns), ih ns]
      cases ToYamlNodeFields L rest [] with
      | error m => rfl
      | panic m => rfl
      | ok r => simp [Result.bind]

/-- The struct loop on a field list cut in two runs the first part, then the
second part on what the first has built. -/
theorem ToYamlNodeFields_append (L : Lib) (pre post : List (StructField × Value))
    (content : List Node) :
    ToYamlNodeFields L (pre ++ post) content =
      (ToYamlNodeFields L pre content).bind (fun c => ToYamlNodeFields L post c) := by
  induction pre generalizing content with
  | nil => simp [ToYamlNodeFields, Result.bind]
  | cons x rest ih =>
    obtain ⟨field, value⟩ := x
    rw [List.cons_append, ToYamlNodeFields_cons, ToYamlNodeFields_cons]
    cases fieldContribution L field value with
    | error m => rfl
    | panic m => rfl
    | ok ns => simp only [Result.bind_ok]; exact ih _

/-- The struct loop around one field: the fields before it, its contribution,
the fields after it, each part run on the empty content. -/
theorem ToYamlNodeFields_split (L : Lib) (pre post : List (StructField × Value))
    (field : StructField) (value : Value) :
    ToYamlNodeFields L (pre ++ (field, value) :: post) [] =
      (ToYamlNodeFields L pre []).bind (fun c =>
        (fieldContribution L field value).bind (fun ns =>
          (ToYamlNodeFields L post []).bind (fun r => .ok (c ++ ns ++ r)))) := by
  rw [ToYamlNodeFields_append]
  cases ToYamlNodeFields L pre [] with
  | error m => rfl
  | panic m => rfl
  | ok c =>
    simp only [Result.bind_ok]
    rw [ToYamlNodeFields_cons]
    cases fieldContribution L field value with
    | error m => rfl
    | panic m => rfl
    | ok ns =>
      simp only [Result.bind_ok]
      rw [ToYamlNodeFields_acc]

/-- The struct case of the walker on a value that is not read-only. -/
theorem ToYamlNode_struct (L : Lib) (t : TypeInfo) (fs : List (StructField × Value)) :
    ToYamlNode L false (.struct t fs) =
      (ToYamlNodeFields L fs []).bind (fun c => .ok (mappingNode c)) := by
  rw [ToYamlNode]
  simp only [viaInterface, Bool.false_eq_true, if_false]
  cases ToYamlNodeFields L fs [] <;> rfl

/-- The flag loop stops with the `flow` error exactly when `flow` is among the
flags, and otherwise switches on what `inline` and `omitempty` ask for. -/
theorem scanFlags_eq (flags : List String) (inline omit_empty : Bool) :
    scanFlags flags inline omit_empty =
      if "flow" ∈ flags then none
      else some (inline || decide ("inline" ∈ flags), omit_empty || decide ("omitempty" ∈ flags)) := by
  induction flags generalizing inline omit_empty with
  | nil => simp [scanFlags]
  | cons flag rest ih =>
    rw [scanFlags]
    by_cases h1 : flag = "omitempty"
    · subst h1
      simp only [if_true, ih]
      by_cases hf : "flow" ∈ rest
      · simp [hf]
      · have : ¬ ("flow" = "omitempty") := by decide
        have h2 : ¬ ("inline" = "omitempty") := by decide
        simp [hf, this, h2]
    · by_cases h2 : flag = "flow"
      · subst h2
        simp [h1]
      · by_cases h3 : flag = "inline"
        · subst h3
          simp only [h1, h2, if_false, if_true, ih]
          by_cases hf : "flow" ∈ rest
          · simp [hf]
          · have : ¬ ("flow" = "inline") := by decide
            have h4 : ¬ ("omitempty" = "inline") := by decide
            simp [hf, this, h4]
        · simp only [h1, h2, h3, if_false, ih]
          have e1 : ¬ ("flow" = flag) := fun h => h2 h.symm
          have e2 : ¬ ("inline" = flag) := fun h => h3 h.symm
          have e3 : ¬ ("omitempty" = flag) := fun h => h1 h.symm
          simp [e1, e2, e3]

/-- A tag that lists the `flow` flag does not parse: the struct loop returns
the flow error. -/
theorem parseTag_flow (tag : String) (h : "flow" ∈ tagFlags tag) : parseTag tag = none := by
  unfold tagFlags at h
  unfold parseTag
  have hlen : (strings_Split tag ',').length > 1 := by
    cases hs : strings_Split tag ',' with
    | nil => rw [hs] at h; simp at h
    | cons a l =>
      cases l with
      | nil => rw [hs] at h; simp at h
      | cons b l2 => simp
  simp only [hlen, if_true, scanFlags_eq, h]

/-- A tag without the `flow` flag parses, to the flags it lists. -/
theorem parseTag_noflow (tag : String) (h : "flow" ∉ tagFlags tag) :
    ∃ name, parseTag tag =
      some ⟨name, decide ("inline" ∈ tagFlags tag), decide ("omitempty" ∈ tagFlags tag)⟩ := by
  unfold tagFlags at h ⊢
  unfold parseTag
  by_cases hlen : (strings_Split tag ',').length > 1
  · simp only [hlen, if_true, scanFlags_eq, h, if_false, Bool.false_or]
    exact ⟨_, rfl⟩
  · have ht : (strings_Split tag ',').tail = [] := by
      cases hs : strings_Split tag ',' with
      | nil => rfl
      | cons a l =>
        cases l with
        | nil => rfl
        | cons b l2 => rw [hs] at hlen; simp at hlen
    simp only [hlen, if_false, ht]
    exact ⟨tag, by simp⟩

/-! ## A struct around one of its fields -/

/-- When the struct converts, the fields before the chosen one, the chosen one
and the fields after it each contribute a list of nodes, and the children of
the mapping are the three lists in this order. -/
theorem struct_ok_inv (L : Lib) (t : TypeInfo) (pre post : List (StructField × Value))
    (field : StructField) (value : Value) (node : Node)
    (h : ToYamlNode L false (.struct t (pre ++ (field, value) :: post)) = .ok node) :
    ∃ c ns r, ToYamlNodeFields L pre [] = .ok c ∧ fieldContribution L field value = .ok ns ∧
      ToYamlNodeFields L post [] = .ok r ∧ node = mappingNode (c ++ ns ++ r) := by
  rw [ToYamlNode_struct, ToYamlNodeFields_split] at h
  cases hc : ToYamlNodeFields L pre [] with
  | error m => rw [hc] at h; simp [Result.bind] at h
  | panic m => rw [hc] at h; simp [Result.bind] at h
  | ok c =>
    cases hn : fieldContribution L field value with
    | error m => rw [hc, hn] at h; simp [Result.bind] at h
    | panic m => rw [hc, hn] at h; simp [Result.bind] at h
    | ok ns =>
      cases hr : ToYamlNodeFields L post [] with
      | error m => rw [hc, hn, hr] at h; simp [Result.bind] at h
      | panic m => rw [hc, hn, hr] at h; simp [Result.bind] at h
      | ok r =>
        rw [hc, hn, hr] at h
        simp only [Result.bind, Result.ok.injEq] at h
        exact ⟨c, ns, r, rfl, rfl, rfl, h.symm⟩

/-- When the three parts of a struct contribute, the struct converts to the
mapping of the three contributions in order. -/
theorem struct_ok_intro (L : Lib) (t : TypeInfo) (pre post : List (StructField × Value))
    (field : StructField) (value : Value) (c ns r : List Node)
    (hc : ToYamlNodeFields L pre [] = .ok c) (hn : fieldContribution L field value = .ok ns)
    (hr : ToYamlNodeFields L post [] = .ok r) :
    ToYamlNode L false (.struct t (pre ++ (field, value) :: post)) =
      .ok (mappingNode (c ++ ns ++ r)) := by
  rw [ToYamlNode_struct, ToYamlNodeFields_split, hc, hn, hr]
  rfl

/-- When a field stops the struct loop with an error, the struct returns an
error, unless the fields before it have already made the conversion panic. -/
theorem struct_error_of_field (L : Lib) (t : TypeInfo) (pre post : List (StructField × Value))
    (field : StructField) (value : Value) (m0 : String)
    (hn : fieldContribution L field value = .error m0) :
    (∃ m, ToYamlNode L false (.struct t (pre ++ (field, value) :: post)) = .error m) ∨
    (∃ m, ToYamlNodeFields L pre [] = .panic m ∧
      ToYamlNode L false (.struct t (pre ++ (field, value) :: post)) = .panic m) := by
  rw [ToYamlNode_struct, ToYamlNodeFields_split, hn]
  cases ToYamlNodeFields L pre [] with
  | error m => exact Or.inl ⟨m, rfl⟩
  | panic m => exact Or.inr ⟨m, rfl, rfl⟩
  | ok c => exact Or.inl ⟨m0, rfl⟩

/-- A struct with a field that contributes nothing converts like the struct
without that field. -/
theorem struct_drop_field (L : Lib) (t : TypeInfo) (pre post : List (StructField × Value))
    (field : StructField) (value : Value) (hn : fieldContribution L field value = .ok []) :
    ToYamlNode L false (.struct t (pre ++ (field, value) :: post)) =
      ToYamlNode L false (.struct t (pre ++ post)) := by
  rw [ToYamlNode_struct, ToYamlNode_struct, ToYamlNodeFields_split, hn, ToYamlNodeFields_append]
  cases ToYamlNodeFields L pre [] with
  | error m => rfl
  | panic m => rfl
  | ok c =>
    simp only [Result.bind_ok, List.append_nil]
    rw [ToYamlNodeFields_acc L post c]

/-! ## The contribution of a field, by its directives -/

theorem tagFlags_empty : tagFlags "" = [] := by decide

theorem tagFlags_dash : tagFlags "-" = [] := by decide

/-- A non-empty primary tag value is the tag the loop works with. -/
theorem fieldTag_of_primary (L : Lib) (field : StructField)
    (h : L.TagGet field.Tag "yaml" ≠ "") : fieldTag L field = L.TagGet field.Tag "yaml" := by
  unfold fieldTag
  simp [h]

/-- A primary tag value that lists a flag is the tag the loop works with. -/
theorem fieldTag_of_flag (L : Lib) (field : StructField) (flag : String)
    (h : flag ∈ tagFlags (L.TagGet field.Tag "yaml")) :
    fieldTag L field = L.TagGet field.Tag "yaml" := by
  apply fieldTag_of_primary
  intro h0
  rw [h0, tagFlags_empty] at h
  simp at h

/-- A tag that lists a flag is not the skip tag. -/
theorem ne_dash_of_flag (tag flag : String) (h : flag ∈ tagFlags tag) : tag ≠ "-" := by
  intro h0
  rw [h0, tagFlags_dash] at h
  simp at h

/-- A field with the skip tag contributes nothing. -/
theorem fieldContribution_skip (L : Lib) (field : StructField) (value : Value)
    (h : fieldTag L field = "-") : fieldContribution L field value = .ok [] := by
  unfold fieldContribution
  by_cases h1 : field.PkgPath ≠ "" ∧ field.Anonymous = false
  · simp [h1]
  · simp [h1, h]

/-- A visible field whose tag lists `flow` stops the loop with the flow error. -/
theorem fieldContribution_flow (L : Lib) (field : StructField) (value : Value)
    (hvis : field.PkgPath = "" ∨ field.Anonymous = true)
    (h : "flow" ∈ tagFlags (fieldTag L field)) :
    fieldContribution L field value = .error flowError := by
  unfold fieldContribution
  have h1 : ¬ (field.PkgPath ≠ "" ∧ field.Anonymous = false) := by
    rintro ⟨a, b⟩
    rcases hvis with hv | hv
    · exact a hv
    · rw [hv] at b; exact Bool.noConfusion b
  have h2 : fieldTag L field ≠ "-" := ne_dash_of_flag _ _ h
  simp [h1, h2, parseTag_flow _ h]

/-- The contribution of a visible, non-skipped field whose tag parses. -/
theorem fieldContribution_parsed (L : Lib) (field : StructField) (value : Value) (d : Directive)
    (hvis : field.PkgPath = "" ∨ field.Anonymous = true)
    (hskip : fieldTag L field ≠ "-") (hd : parseTag (fieldTag L field) = some d) :
    fieldContribution L field value =
      (if d.omit_empty = true then isZero (decide (field.PkgPath ≠ "")) value
        else Result.ok false).bind (fun z =>
        if z = true then .ok []
        else if d.inline = true then
          if inlineAllowed value.Type = true then
            (ToYamlNode L (decide (field.PkgPath ≠ "")) value).bind (fun n => .ok n.Content)
          else .error inlineError
        else
          match ToYamlNode L (decide (field.PkgPath ≠ "")) value with
          | .error _ => .panic nilDerefPanic
          | .panic m => .panic m
          | .ok n =>
              .ok [L.EncodeString (keyName L field d),
                   n.setComments (L.TagGet field.Tag "head_comment")
                     (L.TagGet field.Tag "foot_comment") (L.TagGet field.Tag "line_comment")]) := by
  unfold fieldContribution
  have h1 : ¬ (field.PkgPath ≠ "" ∧ field.Anonymous = false) := by
    rintro ⟨a, b⟩
    rcases hvis with hv | hv
    · exact a hv
    · rw [hv] at b; exact Bool.noConfusion b
  simp only [h1, hskip, if_false, hd]
  generalize (if d.omit_empty = true then isZero (decide (field.PkgPath ≠ "")) value
    else Result.ok false) = z
  cases z with
  | error m => rfl
  | panic m => rfl
  | ok b =>
    cases b with
    | true => rfl
    | false =>
      simp only [Result.bind_ok, Bool.false_eq_true, if_false]
      by_cases h3 : d.inline = true
      · by_cases h4 : inlineAllowed value.Type = true
        · simp only [h3, h4, if_true]
          generalize ToYamlNode L (decide (field.PkgPath ≠ "")) value = r
          cases r <;> rfl
        · simp only [h3, h4, if_true, if_false, Bool.false_eq_true]
      · simp only [h3, if_false, Bool.false_eq_true]

/-- What a parsed tag says is what its flags list. -/
theorem parseTag_some (tag : String) (d : Directive) (h : parseTag tag = some d) :
    "flow" ∉ tagFlags tag ∧ d.inline = decide ("inline" ∈ tagFlags tag) ∧
      d.omit_empty = decide ("omitempty" ∈ tagFlags tag) := by
  by_cases hf : "flow" ∈ tagFlags tag
  · rw [parseTag_flow tag hf] at h
    exact Option.noConfusion h
  · obtain ⟨name, hn⟩ := parseTag_noflow tag hf
    rw [hn] at h
    injection h with h
    subst h
    exact ⟨hf, rfl, rfl⟩

/-- A visible field whose contribution is not an error has a tag that parses. -/
theorem parseTag_of_contribution (L : Lib) (field : StructField) (value : Value)
    (ns : List Node) (hvis : field.PkgPath = "" ∨ field.Anonymous = true)
    (h : fieldContribution L field value = .ok ns) :
    ∃ d, parseTag (fieldTag L field) = some d := by
  by_cases hf : "flow" ∈ tagFlags (fieldTag L field)
  · rw [fieldContribution_flow L field value hvis hf] at h
    exact Result.noConfusion h
  · obtain ⟨name, hn⟩ := parseTag_noflow _ hf
    exact ⟨_, hn⟩

/-- A field with `omitempty` and an empty value contributes nothing. -/
theorem fieldContribution_omitted (L : Lib) (field : StructField) (value : Value) (d : Directive)
    (hvis : field.PkgPath = "" ∨ field.Anonymous = true)
    (hskip : fieldTag L field ≠ "-") (hd : parseTag (fieldTag L field) = some d)
    (homit : d.omit_empty = true)
    (hz : isZero (decide (field.PkgPath ≠ "")) value = .ok true) :
    fieldContribution L field value = .ok [] := by
  rw [fieldContribution_parsed L field value d hvis hskip hd]
  simp only [homit, if_true, hz, Result.bind_ok]

/-- A directly emitted field that is kept and contributes, contributes its key
node and its annotated value node. -/
theorem fieldContribution_direct (L : Lib) (field : StructField) (value : Value) (d : Directive)
    (ns : List Node) (hvis : field.PkgPath = "" ∨ field.Anonymous = true)
    (hskip : fieldTag L field ≠ "-") (hd : parseTag (fieldTag L field) = some d)
    (hinl : d.inline = false)
    (hkeep : ¬ (d.omit_empty = true ∧ isZero (decide (field.PkgPath ≠ "")) value = .ok true))
    (h : fieldContribution L field value = .ok ns) :
    ∃ n, ToYamlNode L (decide (field.PkgPath ≠ "")) value = .ok n ∧
      ns = [L.EncodeString (keyName L field d),
            n.setComments (L.TagGet field.Tag "head_comment")
              (L.TagGet field.Tag "foot_comment") (L.TagGet field.Tag "line_comment")] := by
  rw [fieldContribution_parsed L field value d hvis hskip hd] at h
  have hz : ∃ z, (if d.omit_empty = true then isZero (decide (field.PkgPath ≠ "")) value
      else Result.ok false) = .ok z ∧ z = false := by
    by_cases ho : d.omit_empty = true
    · simp only [ho, if_true] at h ⊢
      cases hz : isZero (decide (field.PkgPath ≠ "")) value with
      | error m => rw [hz] at h; exact Result.noConfusion h
      | panic m => rw [hz] at h; exact Result.noConfusion h
      | ok z =>
        cases z with
        | true => exact absurd ⟨ho, hz⟩ hkeep
        | false => exact ⟨false, rfl, rfl⟩
    · simp only [ho, if_false]
      exact ⟨false, rfl, rfl⟩
  obtain ⟨z, hz1, hz2⟩ := hz
  subst hz2
  rw [hz1] at h
  simp only [Result.bind_ok, Bool.false_eq_true, if_false, hinl] at h
  cases hr : ToYamlNode L (decide (field.PkgPath ≠ "")) value with
  | error m => rw [hr] at h; exact Result.noConfusion h
  | panic m => rw [hr] at h; exact Result.noConfusion h
  | ok n =>
    rw [hr] at h
    simp only [Result.ok.injEq] at h
    exact ⟨n, rfl, h.symm⟩

/-- An inlined field that is kept and contributes has a declared type the
inline switch accepts, and contributes the children of its node. -/
theorem fieldContribution_inline_inv (L : Lib) (field : StructField) (value : Value)
    (d : Directive) (ns : List Node) (hvis : field.PkgPath = "" ∨ field.Anonymous = true)
    (hskip : fieldTag L field ≠ "-") (hd : parseTag (fieldTag L field) = some d)
    (hinl : d.inline = true)
    (hkeep : ¬ (d.omit_empty = true ∧ isZero (decide (field.PkgPath ≠ "")) value = .ok true))
    (h : fieldContribution L field value = .ok ns) :
    inlineAllowed value.Type = true ∧
      ∃ child, ToYamlNode L (decide (field.PkgPath ≠ "")) value = .ok child ∧
        ns = child.Content := by
  rw [fieldContribution_parsed L field value d hvis hskip hd] at h
  have hz : (if d.omit_empty = true then isZero (decide (field.PkgPath ≠ "")) value
      else Result.ok false) = .ok false := by
    by_cases ho : d.omit_empty = true
    · simp only [ho, if_true] at h ⊢
      cases hz : isZero (decide (field.PkgPath ≠ "")) value with
      | error m => rw [hz] at h; exact Result.noConfusion h
      | panic m => rw [hz] at h; exact Result.noConfusion h
      | ok z =>
        cases z with
        | true => exact absurd ⟨ho, hz⟩ hkeep
        | false => rfl
    · simp only [ho, if_false, Bool.false_eq_true]
  rw [hz] at h
  simp only [Result.bind_ok, Bool.false_eq_true, if_false, hinl, if_true] at h
  by_cases ha : inlineAllowed value.Type = true
  · simp only [ha, if_true] at h
    refine ⟨ha, ?_⟩
    cases hr : ToYamlNode L (decide (field.PkgPath ≠ "")) value with
    | error m => rw [hr] at h; exact Result.noConfusion h
    | panic m => rw [hr] at h; exact Result.noConfusion h
    | ok n =>
      rw [hr] at h
      simp only [Result.bind_ok, Result.ok.injEq] at h
      exact ⟨n, rfl, h.symm⟩
  · simp only [ha, if_false, Bool.false_eq_true] at h
    exact Result.noConfusion h

/-- An inlined field that is not omitted and whose declared type the inline
switch rejects stops the loop with the inline error. -/
theorem fieldContribution_inline_bad (L : Lib) (field : StructField) (value : Value)
    (d : Directive) (hvis : field.PkgPath = "" ∨ field.Anonymous = true)
    (hskip : fieldTag L field ≠ "-") (hd : parseTag (fieldTag L field) = some d)
    (hinl : d.inline = true)
    (hkeep : d.omit_empty = true → isZero (decide (field.PkgPath ≠ "")) value = .ok false)
    (hbad : inlineAllowed value.Type = false) :
    fieldContribution L field value = .error inlineError := by
  rw [fieldContribution_parsed L field value d hvis hskip hd]
  have hz : (if d.omit_empty = true then isZero (decide (field.PkgPath ≠ "")) value
      else Result.ok false) = .ok false := by
    by_cases ho : d.omit_empty = true
    · simp only [ho, if_true, hkeep ho]
    · simp only [ho, if_false, Bool.false_eq_true]
  rw [hz]
  simp only [Result.bind_ok, Bool.false_eq_true, if_false, hinl, if_true, hbad]

/-- An inlined field that is not omitted, whose declared type the inline
switch accepts and whose value converts, contributes the children of its node. -/
theorem fieldContribution_inline_ok (L : Lib) (field : StructField) (value : Value)
    (d : Directive) (child : Node) (hvis : field.PkgPath = "" ∨ field.Anonymous = true)
    (hskip : fieldTag L field ≠ "-") (hd : parseTag (fieldTag L field) = some d)
    (hinl : d.inline = true)
    (hkeep : d.omit_empty = true → isZero (decide (field.PkgPath ≠ "")) value = .ok false)
    (hok : inlineAllowed value.Type = true)
    (hchild : ToYamlNode L (decide (field.PkgPath ≠ "")) value = .ok child) :
    fieldContribution L field value = .ok child.Content := by
  rw [fieldContribution_parsed L field value d hvis hskip hd]
  have hz : (if d.omit_empty = true then isZero (decide (field.PkgPath ≠ "")) value
      else Result.ok false) = .ok false := by
    by_cases ho : d.omit_empty = true
    · simp only [ho, if_true, hkeep ho]
    · simp only [ho, if_false, Bool.false_eq_true]
  rw [hz]
  simp only [Result.bind_ok, Bool.false_eq_true, if_false, hinl, if_true, hok, hchild]

/-- An exported field is not read-only. -/
theorem ro_of_exported (field : StructField) (h : field.PkgPath = "") :
    decide (field.PkgPath ≠ "") = false := by
  simp [h]

/-- The children of the mapping node. -/
theorem mappingNode_Content (c : List Node) : (mappingNode c).Content = c := rfl

/-- The value node after the three assignments has the three texts. -/
theorem setComments_slots (n : Node) (h f l : String) :
    (n.setComments h f l).HeadComment = h ∧ (n.setComments h f l).LineComment = l ∧
      (n.setComments h f l).FootComment = f := by
  cases n
  exact ⟨rfl, rfl, rfl⟩

/-- The three assignments leave the rest of the value node as it was. -/
theorem setComments_rest (n : Node) (h f l : String) :
    (n.setComments h f l).Kind = n.Kind ∧ (n.setComments h f l).Tag = n.Tag ∧
      (n.setComments h f l).Value = n.Value ∧ (n.setComments h f l).Content = n.Content := by
  cases n
  exact ⟨rfl, rfl, rfl, rfl⟩

/-- A string has length zero exactly when it is the empty string. -/
theorem string_length_zero (s : String) : s.length = 0 ↔ s = "" := by
  constructor
  · intro h
    cases s with
    | mk data =>
      have hd : data = [] := List.length_eq_zero.mp h
      subst hd
      rfl
  · intro h
    subst h
    rfl

/-- A conversion that succeeds on a value reached through a field succeeds on
the value as such, with the same node. -/
theorem ToYamlNode_ok_of_ro (L : Lib) (ro : Bool) (v : Value) (n : Node)
    (h : ToYamlNode L ro v = .ok n) : ToYamlNode L false v = .ok n := by
  cases ro with
  | false => exact h
  | true =>
    cases v <;> rw [ToYamlNode] at h <;> first
      | (rw [ToYamlNode]; exact h)
      | exact Result.noConfusion h

/-- The emptiness rule panics on a read-only value. -/
theorem isZero_ro (v : Value) (b : Bool) : isZero true v ≠ .ok b := by
  cases v <;> rw [isZero] <;> simp [viaIsZeroer]

/-- A pointer is converted as what it points to. -/
theorem ToYamlNode_ptr (L : Lib) (t : TypeInfo) (w : Value) :
    ToYamlNode L false (.ptr t w) = ToYamlNode L false w := by
  rw [ToYamlNode]
  rfl

/-- A value whose dynamic type is `[]byte` is encoded as its bytes. -/
theorem ToYamlNode_of_asBytes (L : Lib) (w : Value) (b : Option (List Nat))
    (h : w.asBytes = some b) : ToYamlNode L false w = .ok (L.EncodeBytes b) := by
  cases w with
  | iface v =>
    rw [ToYamlNode]
    simp only [Value.asBytes] at h
    simp only [viaInterface, Bool.false_eq_true, if_false, h]
  | nilSlice t e =>
    rw [ToYamlNode]
    simp only [viaInterface, Bool.false_eq_true, if_false, h]
  | slice t e items =>
    rw [ToYamlNode]
    simp only [viaInterface, Bool.false_eq_true, if_false, h]
  | _ => simp [Value.asBytes] at h

/-- A non-nil interface is converted as the value it holds. -/
theorem ToYamlNode_iface (L : Lib) (w : Value) :
    ToYamlNode L false (.iface w) = ToYamlNode L false w := by
  rw [ToYamlNode]
  simp only [viaInterface, Bool.false_eq_true, if_false]
  cases hb : w.asBytes with
  | none => rfl
  | some b => simp only [ToYamlNode_of_asBytes L w b hb]

/-! ## C1: the quickstart record -/

/-- C1: the quickstart record `Test{Name: "a", Nickname: "b", Age: 0}` converts
to a mapping node with six children, the pairs `name`, `nickname`, `age` in
declaration order; the value node of `name` carries only the head comment,
that of `nickname` only the line comment, that of `age` (emitted although
zero) only the foot comment, and the three key nodes carry no annotation. -/
theorem quickstart_tree (floatText : Nat → String) (binaryText : Option (List Nat) → String) :
    ToYamlNode (specLib floatText binaryText) false quickstartTest =
      .ok (.mk .MappingNode 0 "!!map" "" ""
        [.mk .ScalarNode 0 "!!str" "name" "" [] "" "" "",
         .mk .ScalarNode 0 "!!str" "a" "" [] "head comment" "" "",
         .mk .ScalarNode 0 "!!str" "nickname" "" [] "" "" "",
         .mk .ScalarNode 0 "!!str" "b" "" [] "" "line comment" "",
         .mk .ScalarNode 0 "!!str" "age" "" [] "" "" "",
         .mk .ScalarNode 0 "!!int" "0" "" [] "" "" "foot comment"]
        "" "" "") := by
  rfl

/-! ## C2: errors of nested conversions -/

/-- C2: the error of a nested conversion is returned from a map value, a
slice element and an inlined field, but a directly emitted field whose value
returns the flow error makes the enclosing struct panic on the nil node
instead of returning that error. -/
theorem nested_error_in_emitted_field_panics :
    ToYamlNode exampleLib false flowInner = .error flowError ∧
    ToYamlNode exampleLib false flowInMap = .error flowError ∧
    ToYamlNode exampleLib false flowInSlice = .error flowError ∧
    ToYamlNode exampleLib false flowInline = .error flowError ∧
    ToYamlNode exampleLib false flowOuter = .panic nilDerefPanic := by
  refine ⟨rfl, rfl, rfl, rfl, rfl⟩

/-! ## C3: the flow flag -/

/-- C3, as stated, fails: a struct whose first field is a channel and whose
second field lists `flow` panics on the channel, it does not return an error. -/
theorem flow_after_channel_panics :
    "flow" ∈ tagFlags (exampleLib.TagGet "yaml:\"x,flow\"" "yaml") ∧
    ToYamlNode exampleLib false chanThenFlow = .panic cannotMarshalPanic := by
  refine ⟨by decide, rfl⟩

/-- C3, amended: a struct with an exported field whose primary metadata lists
the `flow` flag returns an error, whatever the name part and the other flags
of the field and whatever its value, unless the fields declared before it make
the conversion panic; it never returns a node. -/
theorem flow_field_errors (L : Lib) (t : TypeInfo) (pre post : List (StructField × Value))
    (f : StructField) (v : Value) (hexp : f.PkgPath = "")
    (hflow : "flow" ∈ tagFlags (L.TagGet f.Tag "yaml")) :
    (∃ m, ToYamlNode L false (.struct t (pre ++ (f, v) :: post)) = .error m) ∨
    (∃ m, ToYamlNodeFields L pre [] = .panic m ∧
      ToYamlNode L false (.struct t (pre ++ (f, v) :: post)) = .panic m) := by
  apply struct_error_of_field L t pre post f v flowError
  apply fieldContribution_flow L f v (Or.inl hexp)
  rw [fieldTag_of_flag L f "flow" hflow]
  exact hflow

/-- Witness of C3 amended, on the field `X int` with the tag `yaml:"-,flow"`
between two other fields. -/
theorem flow_field_errors_witness :
    (exported "X" "yaml:\"-,flow\"").PkgPath = "" ∧
    "flow" ∈ tagFlags (exampleLib.TagGet (exported "X" "yaml:\"-,flow\"").Tag "yaml") ∧
    ((∃ m, ToYamlNode exampleLib false
        (.struct plain (dashPre ++ (exported "X" "yaml:\"-,flow\"", .int plain .Int 1) :: dashPost))
          = .error m) ∨
     (∃ m, ToYamlNodeFields exampleLib dashPre [] = .panic m ∧
        ToYamlNode exampleLib false
        (.struct plain (dashPre ++ (exported "X" "yaml:\"-,flow\"", .int plain .Int 1) :: dashPost))
          = .panic m)) :=
  ⟨rfl, by decide,
    flow_field_errors exampleLib plain dashPre dashPost (exported "X" "yaml:\"-,flow\"")
      (.int plain .Int 1) rfl (by decide)⟩

/-! ## C4: the skip name -/

/-- C4, as stated, fails: with the name part `-` followed by flags the field is
not omitted.  With `omitempty` and a non-empty value it is emitted under the
key `-`, with `flow` the struct returns the flow error, with `inline` on an
integer it returns the inline error. -/
theorem dash_with_flags_not_skipped :
    ToYamlNode exampleLib false dashOmitempty =
      .ok (mappingNode [scalarNode strTag "-", scalarNode intTag "1"]) ∧
    ToYamlNode exampleLib false dashFlow = .error flowError ∧
    ToYamlNode exampleLib false dashInline = .error inlineError := by
  refine ⟨rfl, rfl, rfl⟩

/-- C4, amended: a field whose primary metadata is exactly `-` is omitted: the
struct converts exactly as the struct without that field does, so the field
causes no error and contributes no key node and no value node. -/
theorem skip_exact_dash (L : Lib) (t : TypeInfo) (pre post : List (StructField × Value))
    (f : StructField) (v : Value) (hdash : L.TagGet f.Tag "yaml" = "-") :
    ToYamlNode L false (.struct t (pre ++ (f, v) :: post)) =
      ToYamlNode L false (.struct t (pre ++ post)) := by
  apply struct_drop_field
  apply fieldContribution_skip
  rw [fieldTag_of_primary L f (by rw [hdash]; decide), hdash]

/-- Witness of C4 amended, on `struct { A int; X int "yaml:\"-\""; B int }`
with a channel-free value: the result is the mapping of `a` and `b` alone. -/
theorem skip_exact_dash_witness :
    exampleLib.TagGet dashField.Tag "yaml" = "-" ∧
    ToYamlNode exampleLib false (.struct plain (dashPre ++ (dashField, .int plain .Int 2) :: dashPost)) =
      ToYamlNode exampleLib false (.struct plain (dashPre ++ dashPost)) ∧
    ToYamlNode exampleLib false (.struct plain (dashPre ++ dashPost)) =
      .ok (mappingNode [scalarNode strTag "a", scalarNode intTag "1",
                        scalarNode strTag "b", scalarNode intTag "3"]) :=
  ⟨rfl, skip_exact_dash exampleLib plain dashPre dashPost dashField (.int plain .Int 2) rfl, rfl⟩

/-! ## C5: omitempty -/

/-- C5: for an exported, non-skipped, non-inlined field of a struct that
converts, the key/value pair of the field is absent from the children of the
mapping (which are then the contributions of the fields before and after it)
exactly when the field carries `omitempty` and `isZero` holds of its value;
otherwise the pair stands between the two contributions, so a field without
`omitempty` is emitted even when empty.  For types without a custom `IsZero`,
`isZero` holds of the empty string, the zero integer, a nil pointer or
interface and a slice or map of length zero, and fails on a non-empty string,
a non-zero integer, a non-nil pointer or interface and a non-empty slice or
map. -/
theorem omitempty_iff_isZero (L : Lib) :
    (∀ t : TypeInfo, t.IsZeroer = none →
      (∀ s, isZero false (.string t s) = .ok (decide (s = ""))) ∧
      (∀ k i, isZero false (.int t k i) = .ok (decide (i = 0))) ∧
      (∀ e, isZero false (.nilPtr t e) = .ok true) ∧
      (∀ w, isZero false (.ptr t w) = .ok false) ∧
      isZero false .nilIface = .ok true ∧
      (∀ w, w.IsZeroer = none → isZero false (.iface w) = .ok false) ∧
      (∀ e, isZero false (.nilSlice t e) = .ok true) ∧
      (∀ e xs, isZero false (.slice t e xs) = .ok xs.isEmpty) ∧
      isZero false (.nilMap t) = .ok true ∧
      (∀ es, isZero false (.map t es) = .ok es.isEmpty)) ∧
    (∀ (t : TypeInfo) (pre post : List (StructField × Value)) (f : StructField) (v : Value)
      (z : Bool) (node : Node),
      f.PkgPath = "" → fieldTag L f ≠ "-" → "inline" ∉ tagFlags (fieldTag L f) →
      isZero false v = .ok z →
      ToYamlNode L false (.struct t (pre ++ (f, v) :: post)) = .ok node →
      ∃ c r, ToYamlNodeFields L pre [] = .ok c ∧ ToYamlNodeFields L post [] = .ok r ∧
        (node.Content = c ++ r ↔ ("omitempty" ∈ tagFlags (fieldTag L f) ∧ z = true)) ∧
        (¬ ("omitempty" ∈ tagFlags (fieldTag L f) ∧ z = true) →
          ∃ d n, parseTag (fieldTag L f) = some d ∧ ToYamlNode L false v = .ok n ∧
            node.Content = c ++ [L.EncodeString (keyName L f d),
              n.setComments (L.TagGet f.Tag "head_comment") (L.TagGet f.Tag "foot_comment")
                (L.TagGet f.Tag "line_comment")] ++ r)) := by
  constructor
  · intro t ht
    refine ⟨?_, ?_, ?_, ?_, ?_, ?_, ?_, ?_, ?_, ?_⟩
    · intro s
      rw [isZero]
      simp only [viaIsZeroer, Value.Kind, Value.IsZeroer, ht, Bool.false_eq_true, if_false]
      by_cases hs : s = ""
      · subst hs; rfl
      · have : ¬ s.length = 0 := fun h => hs ((string_length_zero s).mp h)
        simp [hs, this]
    · intro k i
      rw [isZero]
      cases k <;> simp [viaIsZeroer, Value.Kind, Value.IsZeroer, ht]
    · intro e
      rw [isZero]
      simp [viaIsZeroer, Value.Kind, Value.IsZeroer, ht]
    · intro w
      rw [isZero]
      simp [viaIsZeroer, Value.Kind, Value.IsZeroer, ht]
    · rw [isZero]
      simp [viaIsZeroer, Value.Kind, Value.IsZeroer]
    · intro w hw
      rw [isZero]
      simp [viaIsZeroer, Value.Kind, Value.IsZeroer, hw]
    · intro e
      rw [isZero]
      simp [viaIsZeroer, Value.Kind, Value.IsZeroer, ht]
    · intro e xs
      rw [isZero]
      cases xs <;> simp [viaIsZeroer, Value.Kind, Value.IsZeroer, ht]
    · rw [isZero]
      simp [viaIsZeroer, Value.Kind, Value.IsZeroer, ht]
    · intro es
      rw [isZero]
      cases es <;> simp [viaIsZeroer, Value.Kind, Value.IsZeroer, ht]
  · intro t pre post f v z node hexp hskip hinl hz hnode
    obtain ⟨c, ns, r, hc, hn, hr, hnode'⟩ := struct_ok_inv L t pre post f v node hnode
    subst hnode'
    obtain ⟨d, hd⟩ := parseTag_of_contribution L f v ns (Or.inl hexp) hn
    obtain ⟨_, hdi, hdo⟩ := parseTag_some _ d hd
    have hro := ro_of_exported f hexp
    have hdinl : d.inline = false := by rw [hdi]; simp [hinl]
    refine ⟨c, r, hc, hr, ?_, ?_⟩
    · by_cases hom : "omitempty" ∈ tagFlags (fieldTag L f) ∧ z = true
      · have h0 : fieldContribution L f v = .ok [] := by
          apply fieldContribution_omitted L f v d (Or.inl hexp) hskip hd
          · rw [hdo]; simp [hom.1]
          · rw [hro, hz, hom.2]
        rw [h0] at hn
        injection hn with hn
        subst hn
        simp [mappingNode_Content, hom]
      · have hkeep : ¬ (d.omit_empty = true ∧
            isZero (decide (f.PkgPath ≠ "")) v = .ok true) := by
          rintro ⟨h1, h2⟩
          apply hom
          rw [hdo] at h1
          rw [hro, hz] at h2
          injection h2 with h2
          exact ⟨of_decide_eq_true h1, h2⟩
        obtain ⟨n, _, hns⟩ :=
          fieldContribution_direct L f v d ns (Or.inl hexp) hskip hd hdinl hkeep hn
        subst hns
        simp only [mappingNode_Content, hom, iff_false]
        intro hEq
        have := congrArg List.length hEq
        simp at this
        omega
    · intro hom
      have hkeep : ¬ (d.omit_empty = true ∧
          isZero (decide (f.PkgPath ≠ "")) v = .ok true) := by
        rintro ⟨h1, h2⟩
        apply hom
        rw [hdo] at h1
        rw [hro, hz] at h2
        injection h2 with h2
        exact ⟨of_decide_eq_true h1, h2⟩
      obtain ⟨n, hnv, hns⟩ :=
        fieldContribution_direct L f v d ns (Or.inl hexp) hskip hd hdinl hkeep hn
      subst hns
      rw [hro] at hnv
      exact ⟨d, n, hd, hnv, rfl⟩

/-- Witness of C5, on `struct { A int; X string "yaml:\"x,omitempty\""; B int }`
with `X` empty: the pair of `X` is absent. -/
theorem omitempty_iff_isZero_witness :
    ∃ c r, ToYamlNodeFields exampleLib dashPre [] = .ok c ∧
      ToYamlNodeFields exampleLib dashPost [] = .ok r ∧
      ((mappingNode [scalarNode strTag "a", scalarNode intTag "1",
          scalarNode strTag "b", scalarNode intTag "3"]).Content = c ++ r ↔
        ("omitempty" ∈ tagFlags (fieldTag exampleLib omitField) ∧ true = true)) ∧
      (¬ ("omitempty" ∈ tagFlags (fieldTag exampleLib omitField) ∧ true = true) →
        ∃ d n, parseTag (fieldTag exampleLib omitField) = some d ∧
          ToYamlNode exampleLib false (.string plain "") = .ok n ∧
          (mappingNode [scalarNode strTag "a", scalarNode intTag "1",
              scalarNode strTag "b", scalarNode intTag "3"]).Content =
            c ++ [exampleLib.EncodeString (keyName exampleLib omitField d),
              n.setComments (exampleLib.TagGet omitField.Tag "head_comment")
                (exampleLib.TagGet omitField.Tag "foot_comment")
                (exampleLib.TagGet omitField.Tag "line_comment")] ++ r) :=
  (omitempty_iff_isZero exampleLib).2 plain dashPre dashPost omitField (.string plain "") true
    (mappingNode [scalarNode strTag "a", scalarNode intTag "1",
      scalarNode strTag "b", scalarNode intTag "3"])
    rfl (by decide) (by decide) rfl rfl

/-! ## C6: what an inlined field contributes -/

/-- C6, as stated, fails: an inlined struct field that also carries `omitempty`
and whose value is empty contributes nothing, although its value converts to a
mapping with the pair of `x`; and an inlined field that is unexported and not
anonymous contributes nothing either. -/
theorem inline_omitted_contributes_nothing :
    ToYamlNode exampleLib false zeroInner =
      .ok (mappingNode [scalarNode strTag "x", scalarNode intTag "0"]) ∧
    ToYamlNode exampleLib false inlineOmitZero = .ok (mappingNode []) ∧
    ToYamlNode exampleLib false inlinePrivate = .ok (mappingNode []) := by
  refine ⟨rfl, rfl, rfl⟩

/-- C6, amended: in a struct that converts, an exported or anonymous field that
is not skipped, is marked inline and is not omitted by `omitempty` (a map or a
struct in particular) contributes exactly the children of the node of its
value, between the contributions of the fields before it and after it: no key
node of its own, and the spliced nodes are the nodes of the value unchanged. -/
theorem inline_splices_children (L : Lib) (t : TypeInfo)
    (pre post : List (StructField × Value)) (f : StructField) (v : Value) (node : Node)
    (hvis : f.PkgPath = "" ∨ f.Anonymous = true)
    (hskip : fieldTag L f ≠ "-")
    (hinl : "inline" ∈ tagFlags (fieldTag L f))
    (hkeep : ¬ ("omitempty" ∈ tagFlags (fieldTag L f) ∧ isZero false v = .ok true))
    (hnode : ToYamlNode L false (.struct t (pre ++ (f, v) :: post)) = .ok node) :
    ∃ c child r, ToYamlNodeFields L pre [] = .ok c ∧ ToYamlNode L false v = .ok child ∧
      ToYamlNodeFields L post [] = .ok r ∧ node.Content = c ++ child.Content ++ r := by
  obtain ⟨c, ns, r, hc, hn, hr, hnode'⟩ := struct_ok_inv L t pre post f v node hnode
  subst hnode'
  obtain ⟨d, hd⟩ := parseTag_of_contribution L f v ns hvis hn
  obtain ⟨_, hdi, hdo⟩ := parseTag_some _ d hd
  have hdinl : d.inline = true := by rw [hdi]; simp [hinl]
  have hkeep' : ¬ (d.omit_empty = true ∧ isZero (decide (f.PkgPath ≠ "")) v = .ok true) := by
    rintro ⟨h1, h2⟩
    by_cases hp : f.PkgPath = ""
    · rw [ro_of_exported f hp] at h2
      rw [hdo] at h1
      exact hkeep ⟨of_decide_eq_true h1, h2⟩
    · have hro : decide (f.PkgPath ≠ "") = true := by simp [hp]
      rw [hro] at h2
      exact isZero_ro v true h2
  obtain ⟨_, child, hchild, hns⟩ :=
    fieldContribution_inline_inv L f v d ns hvis hskip hd hdinl hkeep' hn
  subst hns
  exact ⟨c, child, r, hc, ToYamlNode_ok_of_ro L _ v child hchild, hr, rfl⟩

/-- Witness of C6 amended, on `struct { A int; M map[string]int "yaml:\",inline\""; B int }`. -/
theorem inline_splices_children_witness :
    ∃ c child r, ToYamlNodeFields exampleLib dashPre [] = .ok c ∧
      ToYamlNode exampleLib false smallMap = .ok child ∧
      ToYamlNodeFields exampleLib dashPost [] = .ok r ∧
      (mappingNode [scalarNode strTag "a", scalarNode intTag "1",
        scalarNode strTag "k", scalarNode intTag "2",
        scalarNode strTag "b", scalarNode intTag "3"]).Content = c ++ child.Content ++ r :=
  inline_splices_children exampleLib plain dashPre dashPost inlineField smallMap
    (mappingNode [scalarNode strTag "a", scalarNode intTag "1",
      scalarNode strTag "k", scalarNode intTag "2",
      scalarNode strTag "b", scalarNode intTag "3"])
    (Or.inl rfl) (by decide) (by decide) (fun h => absurd h.1 (by decide)) rfl

/-! ## C7: inline on a field that is not a map or a struct -/

/-- C7, as stated, fails: an inlined integer field with `omitempty` and the
value zero is omitted before the inline check, and an inlined nil pointer to a
struct is accepted; in both cases the value converts to a scalar node and the
struct converts to a mapping without children, no error. -/
theorem inline_on_non_mapping_accepted :
    ToYamlNode exampleLib false (.int plain .Int 0) = .ok (scalarNode intTag "0") ∧
    ToYamlNode exampleLib false inlineOmitScalar = .ok (mappingNode []) ∧
    ToYamlNode exampleLib false (.nilPtr plain (.defined "Inner" (.basic .Struct))) =
      .ok (scalarNode nullTag "null") ∧
    ToYamlNode exampleLib false inlineNilPtr = .ok (mappingNode []) := by
  refine ⟨rfl, rfl, rfl, rfl⟩

/-- C7, amended: a struct with an exported, non-skipped field marked inline
whose declared type is not a map, a struct or a chain of pointers ending in a
struct, and which is not omitted by `omitempty` (the flag is absent or the
value is not empty), returns an error, whatever the value and the other flags,
unless the fields declared before it make the conversion panic. -/
theorem inline_rejected (L : Lib) (t : TypeInfo) (pre post : List (StructField × Value))
    (f : StructField) (v : Value)
    (hexp : f.PkgPath = "")
    (hskip : fieldTag L f ≠ "-")
    (hinl : "inline" ∈ tagFlags (fieldTag L f))
    (hbad : inlineAllowed v.Type = false)
    (hkeep : "omitempty" ∈ tagFlags (fieldTag L f) → isZero false v = .ok false) :
    (∃ m, ToYamlNode L false (.struct t (pre ++ (f, v) :: post)) = .error m) ∨
    (∃ m, ToYamlNodeFields L pre [] = .panic m ∧
      ToYamlNode L false (.struct t (pre ++ (f, v) :: post)) = .panic m) := by
  by_cases hf : "flow" ∈ tagFlags (fieldTag L f)
  · exact struct_error_of_field L t pre post f v flowError
      (fieldContribution_flow L f v (Or.inl hexp) hf)
  · obtain ⟨name, hd⟩ := parseTag_noflow _ hf
    apply struct_error_of_field L t pre post f v inlineError
    apply fieldContribution_inline_bad L f v _ (Or.inl hexp) hskip hd
    · simp [hinl]
    · intro ho
      rw [ro_of_exported f hexp]
      exact hkeep (of_decide_eq_true ho)
    · exact hbad

/-- Witness of C7 amended, on `struct { A int; X int "yaml:\",inline,omitempty\""; B int }`
with `X` equal to one. -/
theorem inline_rejected_witness :
    (∃ m, ToYamlNode exampleLib false
      (.struct plain (dashPre ++
        (exported "X" "yaml:\",inline,omitempty\"", .int plain .Int 1) :: dashPost)) = .error m) ∨
    (∃ m, ToYamlNodeFields exampleLib dashPre [] = .panic m ∧
      ToYamlNode exampleLib false
      (.struct plain (dashPre ++
        (exported "X" "yaml:\",inline,omitempty\"", .int plain .Int 1) :: dashPost)) = .panic m) :=
  inline_rejected exampleLib plain dashPre dashPost (exported "X" "yaml:\",inline,omitempty\"")
    (.int plain .Int 1) rfl (by decide) (by decide) rfl (fun _ => rfl)

/-! ## C8: inline through references -/

/-- C8, as stated, fails: an inline field of type pointer to map and an inline
interface field holding a struct are rejected with the inline error, although
what they refer to converts to a mapping. -/
theorem inline_through_reference_rejected :
    ToYamlNode exampleLib false (.ptr plain smallMap) =
      .ok (mappingNode [scalarNode strTag "k", scalarNode intTag "2"]) ∧
    ToYamlNode exampleLib false inlinePtrMap = .error inlineError ∧
    ToYamlNode exampleLib false (.iface zeroInner) =
      .ok (mappingNode [scalarNode strTag "x", scalarNode intTag "0"]) ∧
    ToYamlNode exampleLib false inlineIface = .error inlineError := by
  refine ⟨rfl, rfl, rfl, rfl⟩

/-- C8, amended: a struct with an exported, non-skipped field marked inline,
without `flow` and not omitted by `omitempty`, whose declared type is a map, a
struct or a chain of pointers ending in a struct and whose value converts,
converts (the other fields converting) to the mapping in which the children of
the node of the field's value stand at the field's position. -/
theorem inline_accepted (L : Lib) (t : TypeInfo) (pre post : List (StructField × Value))
    (f : StructField) (v : Value) (c r : List Node) (child : Node)
    (hexp : f.PkgPath = "")
    (hskip : fieldTag L f ≠ "-")
    (hinl : "inline" ∈ tagFlags (fieldTag L f))
    (hflow : "flow" ∉ tagFlags (fieldTag L f))
    (hok : inlineAllowed v.Type = true)
    (hkeep : "omitempty" ∈ tagFlags (fieldTag L f) → isZero false v = .ok false)
    (hpre : ToYamlNodeFields L pre [] = .ok c)
    (hchild : ToYamlNode L false v = .ok child)
    (hpost : ToYamlNodeFields L post [] = .ok r) :
    ToYamlNode L false (.struct t (pre ++ (f, v) :: post)) =
      .ok (mappingNode (c ++ child.Content ++ r)) := by
  obtain ⟨name, hd⟩ := parseTag_noflow _ hflow
  apply struct_ok_intro L t pre post f v c child.Content r hpre _ hpost
  apply fieldContribution_inline_ok L f v _ child (Or.inl hexp) hskip hd
  · simp [hinl]
  · intro ho
    rw [ro_of_exported f hexp]
    exact hkeep (of_decide_eq_true ho)
  · exact hok
  · rw [ro_of_exported f hexp]
    exact hchild

/-- Witness of C8 amended, on `struct { A int; P **Inner "yaml:\",inline\""; B int }`
with `P` pointing to a pointer to `Inner{X: 0}`. -/
theorem inline_accepted_witness :
    ToYamlNode exampleLib false
      (.struct plain (dashPre ++
        (exported "P" "yaml:\",inline\"", .ptr plain (.ptr plain zeroInner)) :: dashPost)) =
      .ok (mappingNode
        ([scalarNode strTag "a", scalarNode intTag "1"] ++
          (mappingNode [scalarNode strTag "x", scalarNode intTag "0"]).Content ++
          [scalarNode strTag "b", scalarNode intTag "3"])) :=
  inline_accepted exampleLib plain dashPre dashPost (exported "P" "yaml:\",inline\"")
    (.ptr plain (.ptr plain zeroInner))
    [scalarNode strTag "a", scalarNode intTag "1"] [scalarNode strTag "b", scalarNode intTag "3"]
    (mappingNode [scalarNode strTag "x", scalarNode intTag "0"])
    rfl (by decide) (by decide) (by decide) rfl (fun _ => rfl) rfl rfl rfl

/-! ## C9: exported, unexported and anonymous fields -/

/-- C9: an unexported field that is not anonymous contributes no pair and an
exported anonymous field contributes its pair, but a struct with an anonymous
unexported field, whose value converts by itself, does not convert: the walker
panics when it asks `reflect` for the value of that field. -/
theorem anonymous_unexported_field_panics :
    ToYamlNode exampleLib false privateField = .ok (mappingNode []) ∧
    ToYamlNode exampleLib false embeddedExported =
      .ok (mappingNode [scalarNode strTag "inner",
        mappingNode [scalarNode strTag "x", scalarNode intTag "0"]]) ∧
    ToYamlNode exampleLib false innerValue =
      .ok (mappingNode [scalarNode strTag "x", scalarNode intTag "0"]) ∧
    ToYamlNode exampleLib false embeddedUnexported = .panic roPanic := by
  refine ⟨rfl, rfl, rfl, rfl⟩

/-! ## C10: where the annotations land -/

/-- C10: in a struct that converts, a directly emitted field (exported or
anonymous, not skipped, not inlined, not omitted by `omitempty`) contributes,
between the contributions of the fields before and after it, a key node and a
value node; the value node is the node of the field's value with
`HeadComment`, `LineComment` and `FootComment` set to the field's
`head_comment`, `line_comment` and `foot_comment` metadata, and the key node,
the encoding of the field's name, has the three slots empty, as every encoded
string has.  A pointer or a non-nil interface converts to the node of what it
refers to, so the annotations land on that node. -/
theorem annotations_on_value_node (L : Lib)
    (hkey : ∀ s, (L.EncodeString s).HeadComment = "" ∧ (L.EncodeString s).LineComment = "" ∧
      (L.EncodeString s).FootComment = "") :
    (∀ (t : TypeInfo) (pre post : List (StructField × Value)) (f : StructField) (v : Value)
      (node : Node),
      (f.PkgPath = "" ∨ f.Anonymous = true) → fieldTag L f ≠ "-" →
      "inline" ∉ tagFlags (fieldTag L f) →
      ¬ ("omitempty" ∈ tagFlags (fieldTag L f) ∧ isZero false v = .ok true) →
      ToYamlNode L false (.struct t (pre ++ (f, v) :: post)) = .ok node →
      ∃ c key val r n d, ToYamlNodeFields L pre [] = .ok c ∧
        ToYamlNodeFields L post [] = .ok r ∧
        node.Content = c ++ [key, val] ++ r ∧
        ToYamlNode L false v = .ok n ∧
        val.HeadComment = L.TagGet f.Tag "head_comment" ∧
        val.LineComment = L.TagGet f.Tag "line_comment" ∧
        val.FootComment = L.TagGet f.Tag "foot_comment" ∧
        val.Kind = n.Kind ∧ val.Tag = n.Tag ∧ val.Value = n.Value ∧ val.Content = n.Content ∧
        parseTag (fieldTag L f) = some d ∧ key = L.EncodeString (keyName L f d) ∧
        key.HeadComment = "" ∧ key.LineComment = "" ∧ key.FootComment = "") ∧
    (∀ (t : TypeInfo) (w : Value), ToYamlNode L false (.ptr t w) = ToYamlNode L false w) ∧
    (∀ w : Value, ToYamlNode L false (.iface w) = ToYamlNode L false w) := by
  refine ⟨?_, ToYamlNode_ptr L, ToYamlNode_iface L⟩
  intro t pre post f v node hvis hskip hinl hkeep hnode
  obtain ⟨c, ns, r, hc, hn, hr, hnode'⟩ := struct_ok_inv L t pre post f v node hnode
  subst hnode'
  obtain ⟨d, hd⟩ := parseTag_of_contribution L f v ns hvis hn
  obtain ⟨_, hdi, hdo⟩ := parseTag_some _ d hd
  have hdinl : d.inline = false := by rw [hdi]; simp [hinl]
  have hkeep' : ¬ (d.omit_empty = true ∧ isZero (decide (f.PkgPath ≠ "")) v = .ok true) := by
    rintro ⟨h1, h2⟩
    by_cases hp : f.PkgPath = ""
    · rw [ro_of_exported f hp] at h2
      rw [hdo] at h1
      exact hkeep ⟨of_decide_eq_true h1, h2⟩
    · have hro : decide (f.PkgPath ≠ "") = true := by simp [hp]
      rw [hro] at h2
      exact isZero_ro v true h2
  obtain ⟨n, hnv, hns⟩ := fieldContribution_direct L f v d ns hvis hskip hd hdinl hkeep' hn
  subst hns
  obtain ⟨s1, s2, s3⟩ := setComments_slots n (L.TagGet f.Tag "head_comment")
    (L.TagGet f.Tag "foot_comment") (L.TagGet f.Tag "line_comment")
  obtain ⟨r1, r2, r3, r4⟩ := setComments_rest n (L.TagGet f.Tag "head_comment")
    (L.TagGet f.Tag "foot_comment") (L.TagGet f.Tag "line_comment")
  obtain ⟨k1, k2, k3⟩ := hkey (keyName L f d)
  exact ⟨c, _, _, r, n, d, hc, hr, rfl, ToYamlNode_ok_of_ro L _ v n hnv, s1, s2, s3,
    r1, r2, r3, r4, hd, rfl, k1, k2, k3⟩

/-- Witness of C10, on `struct { A int; X *string; B int }` with the three
annotation keys on `X` and `X` pointing to the string `s`. -/
theorem annotations_on_value_node_witness :
    ∃ c key val r n d, ToYamlNodeFields exampleLib dashPre [] = .ok c ∧
      ToYamlNodeFields exampleLib dashPost [] = .ok r ∧
      (mappingNode [scalarNode strTag "a", scalarNode intTag "1",
        scalarNode strTag "x", .mk .ScalarNode 0 strTag "s" "" [] "h" "l" "f",
        scalarNode strTag "b", scalarNode intTag "3"]).Content = c ++ [key, val] ++ r ∧
      ToYamlNode exampleLib false (.ptr plain (.string plain "s")) = .ok n ∧
      val.HeadComment = exampleLib.TagGet annotatedField.Tag "head_comment" ∧
      val.LineComment = exampleLib.TagGet annotatedField.Tag "line_comment" ∧
      val.FootComment = exampleLib.TagGet annotatedField.Tag "foot_comment" ∧
      val.Kind = n.Kind ∧ val.Tag = n.Tag ∧ val.Value = n.Value ∧ val.Content = n.Content ∧
      parseTag (fieldTag exampleLib annotatedField) = some d ∧
      key = exampleLib.EncodeString (keyName exampleLib annotatedField d) ∧
      key.HeadComment = "" ∧ key.LineComment = "" ∧ key.FootComment = "" :=
  (annotations_on_value_node exampleLib (fun _ => ⟨rfl, rfl, rfl⟩)).1 plain dashPre dashPost
    annotatedField (.ptr plain (.string plain "s"))
    (mappingNode [scalarNode strTag "a", scalarNode intTag "1",
      scalarNode strTag "x", .mk .ScalarNode 0 strTag "s" "" [] "h" "l" "f",
      scalarNode strTag "b", scalarNode intTag "3"])
    (Or.inl rfl) (by decide) (by decide) (fun h => absurd h.1 (by decide)) rfl

/-! ## C11: the name of a key -/

/-- A split always gives at least one piece. -/
theorem splitChars_ne_nil (sep : Char) (cs cur : List Char) : splitChars sep cs cur ≠ [] := by
  induction cs generalizing cur with
  | nil => simp [splitChars]
  | cons c cs ih =>
    rw [splitChars]
    by_cases hc : c = sep
    · simp [hc]
    · simp only [hc, if_false]
      exact ih _

/-- A split that gives at most one piece gives the text read so far followed
by the text still to read. -/
theorem splitChars_single (sep : Char) (cs cur : List Char)
    (h : (splitChars sep cs cur).length ≤ 1) :
    splitChars sep cs cur = [cur.reverse ++ cs] := by
  induction cs generalizing cur with
  | nil => simp [splitChars]
  | cons c cs ih =>
    rw [splitChars] at h ⊢
    by_cases hc : c = sep
    · simp only [hc, if_true, List.length_cons] at h
      have hpos : 0 < (splitChars sep cs []).length :=
        List.length_pos.mpr (splitChars_ne_nil sep cs [])
      omega
    · simp only [hc, if_false] at h ⊢
      rw [ih (c :: cur) h]
      simp

/-- A tag value without a comma is its own first part. -/
theorem firstPart_single (tag : String) (h : ¬ (strings_Split tag ',').length > 1) :
    firstPart tag = tag := by
  unfold firstPart
  unfold strings_Split at h ⊢
  rw [List.length_map] at h
  rw [splitChars_single ',' tag.data [] (by omega)]
  simp

/-- The name part of a parsed tag is the part before its first comma. -/
theorem parseTag_tag (tag : String) (d : Directive) (h : parseTag tag = some d) :
    d.tag = firstPart tag := by
  unfold parseTag at h
  by_cases hlen : (strings_Split tag ',').length > 1
  · simp only [hlen, if_true] at h
    cases hs : scanFlags (strings_Split tag ',').tail false false with
    | none => rw [hs] at h; exact Option.noConfusion h
    | some p =>
      rw [hs] at h
      obtain ⟨i, o⟩ := p
      simp only [Option.some.injEq] at h
      rw [← h]
      rfl
  · simp only [hlen, if_false, Option.some.injEq] at h
    rw [← h, firstPart_single tag hlen]

/-- The name the struct loop gives a key is the resolved name. -/
theorem keyName_resolved (L : Lib) (field : StructField) (d : Directive)
    (hd : parseTag (fieldTag L field) = some d) :
    keyName L field d = resolvedKeyName L field := by
  have ht := parseTag_tag _ d hd
  have hempty : firstPart "" = "" := by decide
  unfold keyName resolvedKeyName
  rw [ht]
  unfold fieldTag
  by_cases hc : L.TagGet field.Tag "yaml" = "" ∧ strings_Index field.Tag ':' < 0
  · obtain ⟨h1, h2⟩ := hc
    simp only [h1, h2, and_self, if_true, hempty, ne_eq, not_true_eq_false, if_false, true_and]
    by_cases hp : firstPart field.Tag = ""
    · simp [hp]
    · simp [hp]
  · simp only [hc, if_false]
    by_cases hp : firstPart (L.TagGet field.Tag "yaml") = ""
    · have hc' : ¬ (L.TagGet field.Tag "yaml" = "" ∧ strings_Index field.Tag ':' < 0 ∧
          firstPart field.Tag ≠ "") := fun h => hc ⟨h.1, h.2.1⟩
      simp [hp, hc']
    · simp [hp]

/-- C11, as stated, fails: a field without any metadata has no primary key and
no colon in its raw metadata, so the stated rule gives it the part before the
first comma of the raw metadata, the empty string; the walker gives it the
lower-cased identifier. -/
theorem untagged_field_named_by_identifier :
    exampleLib.TagGet (exported "X" "").Tag "yaml" = "" ∧
    strings_Index (exported "X" "").Tag ':' < 0 ∧
    statedKeyName exampleLib (exported "X" "") = "" ∧
    ToYamlNode exampleLib false zeroInner =
      .ok (mappingNode [scalarNode strTag "x", scalarNode intTag "0"]) := by
  refine ⟨rfl, by decide, by decide, rfl⟩

/-- C11, amended: in a struct that converts, the key node of a directly emitted
field is the encoding of the resolved name, and its text is that name when the
encoder keeps the text of a string: the part before the first comma of the
primary metadata value when that part is non-empty; otherwise, when the primary
value is empty, the raw metadata has no colon and its part before the first
comma is non-empty, that part (the flags being then read from the raw
metadata); otherwise the lower-cased identifier. -/
theorem key_is_resolved_name (L : Lib) (t : TypeInfo) (pre post : List (StructField × Value))
    (f : StructField) (v : Value) (node : Node)
    (htext : ∀ s, (L.EncodeString s).Value = s)
    (hvis : f.PkgPath = "" ∨ f.Anonymous = true) (hskip : fieldTag L f ≠ "-")
    (hinl : "inline" ∉ tagFlags (fieldTag L f))
    (hkeep : ¬ ("omitempty" ∈ tagFlags (fieldTag L f) ∧ isZero false v = .ok true))
    (hnode : ToYamlNode L false (.struct t (pre ++ (f, v) :: post)) = .ok node) :
    (∃ c key val r, ToYamlNodeFields L pre [] = .ok c ∧ ToYamlNodeFields L post [] = .ok r ∧
      node.Content = c ++ [key, val] ++ r ∧
      key = L.EncodeString (resolvedKeyName L f) ∧ key.Value = resolvedKeyName L f) ∧
    (L.TagGet f.Tag "yaml" = "" ∧ strings_Index f.Tag ':' < 0 → fieldTag L f = f.Tag) := by
  constructor
  · obtain ⟨c, ns, r, hc, hn, hr, hnode'⟩ := struct_ok_inv L t pre post f v node hnode
    subst hnode'
    obtain ⟨d, hd⟩ := parseTag_of_contribution L f v ns hvis hn
    obtain ⟨_, hdi, hdo⟩ := parseTag_some _ d hd
    have hdinl : d.inline = false := by rw [hdi]; simp [hinl]
    have hkeep' : ¬ (d.omit_empty = true ∧ isZero (decide (f.PkgPath ≠ "")) v = .ok true) := by
      rintro ⟨h1, h2⟩
      by_cases hp : f.PkgPath = ""
      · rw [ro_of_exported f hp] at h2
        rw [hdo] at h1
        exact hkeep ⟨of_decide_eq_true h1, h2⟩
      · have hro : decide (f.PkgPath ≠ "") = true := by simp [hp]
        rw [hro] at h2
        exact isZero_ro v true h2
    obtain ⟨n, _, hns⟩ := fieldContribution_direct L f v d ns hvis hskip hd hdinl hkeep' hn
    subst hns
    rw [keyName_resolved L f d hd]
    exact ⟨c, _, _, r, hc, hr, rfl, rfl, htext _⟩
  · intro h
    unfold fieldTag
    simp [h]

/-- Witness of C11 amended, on `struct { A int; X int "x,omitempty"; B int }`
with `X` equal to two: the raw metadata gives the name and the flag. -/
theorem key_is_resolved_name_witness :
    (∃ c key val r, ToYamlNodeFields exampleLib dashPre [] = .ok c ∧
      ToYamlNodeFields exampleLib dashPost [] = .ok r ∧
      (mappingNode [scalarNode strTag "a", scalarNode intTag "1",
        scalarNode strTag "x", scalarNode intTag "2",
        scalarNode strTag "b", scalarNode intTag "3"]).Content = c ++ [key, val] ++ r ∧
      key = exampleLib.EncodeString (resolvedKeyName exampleLib legacyField) ∧
      key.Value = resolvedKeyName exampleLib legacyField) ∧
    (exampleLib.TagGet legacyField.Tag "yaml" = "" ∧ strings_Index legacyField.Tag ':' < 0 →
      fieldTag exampleLib legacyField = legacyField.Tag) :=
  key_is_resolved_name exampleLib plain dashPre dashPost legacyField (.int plain .Int 2)
    (mappingNode [scalarNode strTag "a", scalarNode intTag "1",
      scalarNode strTag "x", scalarNode intTag "2",
      scalarNode strTag "b", scalarNode intTag "3"])
    (fun _ => rfl) (Or.inl rfl) (by decide) (by decide)
    (fun h => Result.noConfusion (h.2 : isZero false (.int plain .Int 2) = .ok true)
      (fun hb => Bool.noConfusion hb)) rfl

/-! ## C12: byte sequences -/

/-- The sequence loop on the empty content, as an outcome for the slice and
array case. -/
theorem ToYamlNode_array (L : Lib) (t : TypeInfo) (items : List Value) :
    ToYamlNode L false (.array t items) =
      (ToYamlNodeList L false items []).bind (fun c => .ok (sequenceNode c)) := by
  rw [ToYamlNode]
  have hty : ¬ (Value.array t items).Type = typeOfBytes := by
    unfold Value.Type TypeInfo.wrap typeOfBytes
    split <;> exact fun h => GoType.noConfusion h
  simp only [viaInterface, Bool.false_eq_true, if_false, hty]
  cases ToYamlNodeList L false items [] <;> rfl

/-- A slice whose type is not `[]byte` goes through the sequence loop. -/
theorem ToYamlNode_slice (L : Lib) (t : TypeInfo) (e : GoType) (items : List Value)
    (hty : (Value.slice t e items).Type ≠ typeOfBytes) :
    ToYamlNode L false (.slice t e items) =
      (ToYamlNodeList L false items []).bind (fun c => .ok (sequenceNode c)) := by
  rw [ToYamlNode]
  have hb : (Value.slice t e items).asBytes = none := by
    unfold Value.asBytes
    unfold Value.Type at hty
    simp [hty]
  simp only [viaInterface, Bool.false_eq_true, if_false, hb, hty]
  cases ToYamlNodeList L false items [] <;> rfl

/-- C12, as stated, fails: a value of a named byte-slice type and a fixed-size
byte array are converted to a sequence node with one child per byte. -/
theorem named_bytes_and_byte_array_are_sequences :
    ToYamlNode exampleLib false namedBytes =
      .ok (sequenceNode [scalarNode intTag "1", scalarNode intTag "2"]) ∧
    ToYamlNode exampleLib false byteArray =
      .ok (sequenceNode [scalarNode intTag "1", scalarNode intTag "2"]) := by
  refine ⟨rfl, rfl⟩

/-- C12, amended: a value whose type is exactly `[]byte`, nil, empty or not, is
converted to the one node the encoder leaves for its bytes, which in the
encoder of the spec is a scalar node tagged binary without children; an array,
and a slice of any other type, a named byte-slice type included, goes through
the sequence loop instead. -/
theorem bytes_encoded_as_one_node (L : Lib) :
    (∀ (t : TypeInfo) (e : GoType) (items : List Value),
      (Value.slice t e items).Type = typeOfBytes →
      ToYamlNode L false (.slice t e items) = .ok (L.EncodeBytes (some (items.map Value.Uint)))) ∧
    (∀ (t : TypeInfo) (e : GoType), (Value.nilSlice t e).Type = typeOfBytes →
      ToYamlNode L false (.nilSlice t e) = .ok (L.EncodeBytes none)) ∧
    (∀ (floatText : Nat → String) (binaryText : Option (List Nat) → String)
      (b : Option (List Nat)),
      ((specLib floatText binaryText).EncodeBytes b).Kind = .ScalarNode ∧
      ((specLib floatText binaryText).EncodeBytes b).Tag = "!!binary" ∧
      ((specLib floatText binaryText).EncodeBytes b).Content = []) ∧
    (∀ (t : TypeInfo) (items : List Value),
      ToYamlNode L false (.array t items) =
        (ToYamlNodeList L false items []).bind (fun c => .ok (sequenceNode c))) ∧
    (∀ (t : TypeInfo) (e : GoType) (items : List Value),
      (Value.slice t e items).Type ≠ typeOfBytes →
      ToYamlNode L false (.slice t e items) =
        (ToYamlNodeList L false items []).bind (fun c => .ok (sequenceNode c))) := by
  refine ⟨?_, ?_, fun _ _ _ => ⟨rfl, rfl, rfl⟩, ToYamlNode_array L, ToYamlNode_slice L⟩
  · intro t e items hty
    apply ToYamlNode_of_asBytes
    unfold Value.asBytes
    unfold Value.Type at hty
    simp [hty]
  · intro t e hty
    apply ToYamlNode_of_asBytes
    unfold Value.asBytes
    unfold Value.Type at hty
    simp [hty]

/-- Witness of C12 amended, on `[]byte{1, 2}`. -/
theorem bytes_encoded_as_one_node_witness :
    ToYamlNode exampleLib false plainBytes = .ok (exampleLib.EncodeBytes (some [1, 2])) :=
  (bytes_encoded_as_one_node exampleLib).1 plain (.basic .Uint8) [byteValue 1, byteValue 2] rfl

/-! ## C13: references -/

/-- A chain of pointers is converted as what it ends in. -/
theorem ToYamlNode_ptrChain (L : Lib) (ts : List TypeInfo) (v : Value) :
    ToYamlNode L false (ptrChain ts v) = ToYamlNode L false v := by
  induction ts with
  | nil => rfl
  | cons t ts ih =>
    rw [ptrChain, ToYamlNode_ptr, ih]

/-- C13: a pointer to a value, a chain of pointers ending in it and an
interface holding it are converted exactly as the value is (same node, same
error, same panic); the zero `reflect.Value` (what a nil argument gives), a
typed nil pointer and a nil interface convert to what the encoder leaves for
nil, which in the encoder of the spec is a scalar node tagged null without
children. -/
theorem references_transparent (L : Lib) :
    (∀ (t : TypeInfo) (v : Value), ToYamlNode L false (.ptr t v) = ToYamlNode L false v) ∧
    (∀ (ts : List TypeInfo) (v : Value),
      ToYamlNode L false (ptrChain ts v) = ToYamlNode L false v) ∧
    (∀ v : Value, ToYamlNode L false (.iface v) = ToYamlNode L false v) ∧
    ToYamlNode L false .invalid = .ok L.EncodeNil ∧
    (∀ (t : TypeInfo) (e : GoType), ToYamlNode L false (.nilPtr t e) = .ok L.EncodeNil) ∧
    ToYamlNode L false .nilIface = .ok L.EncodeNil ∧
    (∀ (floatText : Nat → String) (binaryText : Option (List Nat) → String),
      (specLib floatText binaryText).EncodeNil.Kind = .ScalarNode ∧
      (specLib floatText binaryText).EncodeNil.Tag = "!!null" ∧
      (specLib floatText binaryText).EncodeNil.Content = []) := by
  refine ⟨ToYamlNode_ptr L, ToYamlNode_ptrChain L, ToYamlNode_iface L, ?_, ?_, ?_,
    fun _ _ => ⟨rfl, rfl, rfl⟩⟩
  · rw [ToYamlNode]
  · intro t e
    rw [ToYamlNode]
    rfl
  · rw [ToYamlNode]
    rfl

/-! ## C14: slices and arrays -/

/-- One round of the sequence loop. -/
theorem ToYamlNodeList_cons (L : Lib) (ro : Bool) (v : Value) (rest : List Value)
    (content : List Node) :
    ToYamlNodeList L ro (v :: rest) content =
      (ToYamlNode L ro v).bind (fun n => ToYamlNodeList L ro rest (content ++ [n])) := by
  rw [ToYamlNodeList]
  cases ToYamlNode L ro v <;> rfl

/-- When every element converts, the sequence loop appends the nodes of the
elements, in order, to the content built so far. -/
theorem ToYamlNodeList_ok (L : Lib) (ro : Bool) (vs : List Value) (ns content : List Node)
    (h : List.Forall₂ (fun v n => ToYamlNode L ro v = .ok n) vs ns) :
    ToYamlNodeList L ro vs content = .ok (content ++ ns) := by
  induction h generalizing content with
  | nil => simp [ToYamlNodeList]
  | cons hd _ ih =>
    rw [ToYamlNodeList_cons, hd, Result.bind_ok, ih]
    simp

/-- A relation that relates every element of a list to something relates the
list to a list. -/
theorem exists_forall₂ {α β : Type} (R : α → β → Prop) (xs : List α)
    (h : ∀ x ∈ xs, ∃ y, R x y) : ∃ ys, List.Forall₂ R xs ys := by
  induction xs with
  | nil => exact ⟨[], List.Forall₂.nil⟩
  | cons x xs ih =>
    obtain ⟨y, hy⟩ := h x (List.mem_cons_self x xs)
    obtain ⟨ys, hys⟩ := ih (fun z hz => h z (List.mem_cons_of_mem x hz))
    exact ⟨y :: ys, List.Forall₂.cons hy hys⟩

/-- C14: a slice that is not a `[]byte`, and an array, whose elements all
convert, converts to a sequence node tagged `!!seq` with as many children as
elements, the child at each index being the node of the element at that index;
a nil or empty slice that is not a `[]byte` gives a sequence node without
children. -/
theorem sequence_children (L : Lib) :
    (∀ (t : TypeInfo) (e : GoType) (items : List Value),
      (Value.slice t e items).Type ≠ typeOfBytes →
      (∀ x ∈ items, ∃ n, ToYamlNode L false x = .ok n) →
      ∃ content, ToYamlNode L false (.slice t e items) =
          .ok (.mk .SequenceNode 0 "!!seq" "" "" content "" "" "") ∧
        content.length = items.length ∧
        ∀ (i : Nat) (h₁ : i < items.length) (h₂ : i < content.length),
          ToYamlNode L false (items.get ⟨i, h₁⟩) = .ok (content.get ⟨i, h₂⟩)) ∧
    (∀ (t : TypeInfo) (items : List Value),
      (∀ x ∈ items, ∃ n, ToYamlNode L false x = .ok n) →
      ∃ content, ToYamlNode L false (.array t items) =
          .ok (.mk .SequenceNode 0 "!!seq" "" "" content "" "" "") ∧
        content.length = items.length ∧
        ∀ (i : Nat) (h₁ : i < items.length) (h₂ : i < content.length),
          ToYamlNode L false (items.get ⟨i, h₁⟩) = .ok (content.get ⟨i, h₂⟩)) ∧
    (∀ (t : TypeInfo) (e : GoType), (Value.nilSlice t e).Type ≠ typeOfBytes →
      ToYamlNode L false (.nilSlice t e) = .ok (.mk .SequenceNode 0 "!!seq" "" "" [] "" "" "")) ∧
    (∀ (t : TypeInfo) (e : GoType), (Value.slice t e []).Type ≠ typeOfBytes →
      ToYamlNode L false (.slice t e []) = .ok (.mk .SequenceNode 0 "!!seq" "" "" [] "" "" "")) := by
  refine ⟨?_, ?_, ?_, ?_⟩
  · intro t e items hty hall
    obtain ⟨ns, hns⟩ := exists_forall₂ _ items hall
    refine ⟨ns, ?_, hns.length_eq.symm, fun i h₁ h₂ => hns.get h₁ h₂⟩
    rw [ToYamlNode_slice L t e items hty, ToYamlNodeList_ok L false items ns [] hns]
    rfl
  · intro t items hall
    obtain ⟨ns, hns⟩ := exists_forall₂ _ items hall
    refine ⟨ns, ?_, hns.length_eq.symm, fun i h₁ h₂ => hns.get h₁ h₂⟩
    rw [ToYamlNode_array L t items, ToYamlNodeList_ok L false items ns [] hns]
    rfl
  · intro t e hty
    rw [ToYamlNode]
    have hb : (Value.nilSlice t e).asBytes = none := by
      unfold Value.asBytes
      unfold Value.Type at hty
      simp [hty]
    simp only [viaInterface, Bool.false_eq_true, if_false, hb, hty]
    rfl
  · intro t e hty
    rw [ToYamlNode_slice L t e [] hty]
    rfl

/-- Witness of C14, on `[]interface{}{1, "a", nil}`. -/
theorem sequence_children_witness :
    ∃ content, ToYamlNode exampleLib false mixedSlice =
        .ok (.mk .SequenceNode 0 "!!seq" "" "" content "" "" "") ∧
      content.length = 3 ∧
      ∀ (i : Nat) (h₁ : i < 3) (h₂ : i < content.length),
        ToYamlNode exampleLib false
          ([Value.iface (.int plain .Int 1), .iface (.string plain "a"), .nilIface].get ⟨i, h₁⟩) =
          .ok (content.get ⟨i, h₂⟩) :=
  (sequence_children exampleLib).1 plain (.basic .Interface)
    [.iface (.int plain .Int 1), .iface (.string plain "a"), .nilIface]
    (by decide)
    (fun x hx => by
      simp only [List.mem_cons, List.mem_singleton, List.not_mem_nil, or_false] at hx
      rcases hx with h | h | h
      · exact ⟨scalarNode intTag "1", by rw [h]; rfl⟩
      · exact ⟨scalarNode strTag "a", by rw [h]; rfl⟩
      · exact ⟨scalarNode nullTag "null", by rw [h]; rfl⟩)

/-! ## C15: maps -/

/-- One round of the map loop. -/
theorem ToYamlNodeEntries_cons (L : Lib) (ro : Bool) (k v : Value)
    (rest : List (Value × Value)) (content : List Node) :
    ToYamlNodeEntries L ro ((k, v) :: rest) content =
      (ToYamlNode L ro k).bind (fun kn =>
        (ToYamlNode L ro v).bind (fun vn =>
          ToYamlNodeEntries L ro rest (content ++ [kn, vn]))) := by
  rw [ToYamlNodeEntries]
  cases ToYamlNode L ro k with
  | error m => rfl
  | panic m => rfl
  | ok kn => cases ToYamlNode L ro v <;> rfl

/-- When every key and every value converts, the map loop appends the key node
and the value node of each entry, in order, to the content built so far. -/
theorem ToYamlNodeEntries_ok (L : Lib) (ro : Bool) (es : List (Value × Value))
    (ps : List (Node × Node)) (content : List Node)
    (h : List.Forall₂
      (fun e p => ToYamlNode L ro e.1 = .ok p.1 ∧ ToYamlNode L ro e.2 = .ok p.2) es ps) :
    ToYamlNodeEntries L ro es content = .ok (content ++ flattenPairs ps) := by
  induction h generalizing content with
  | nil => simp [ToYamlNodeEntries, flattenPairs]
  | @cons e p es1 ps1 hd _ ih =>
    obtain ⟨k, v⟩ := e
    obtain ⟨kn, vn⟩ := p
    rw [ToYamlNodeEntries_cons, hd.1, Result.bind_ok, hd.2, Result.bind_ok, ih]
    simp [flattenPairs]

/-- The map case of the walker on a value that is not read-only. -/
theorem ToYamlNode_map (L : Lib) (t : TypeInfo) (es : List (Value × Value)) :
    ToYamlNode L false (.map t es) =
      (ToYamlNodeEntries L false es []).bind (fun c => .ok (mappingNode c)) := by
  rw [ToYamlNode]
  simp only [viaInterface, Bool.false_eq_true, if_false]
  cases ToYamlNodeEntries L false es [] <;> rfl

/-- The children of a mapping are twice as many as its pairs. -/
theorem flattenPairs_length (ps : List (Node × Node)) :
    (flattenPairs ps).length = 2 * ps.length := by
  induction ps with
  | nil => rfl
  | cons p ps ih =>
    obtain ⟨k, v⟩ := p
    simp only [flattenPairs, List.length_cons, ih]
    omega

/-- The key node of the pair at index `i` is the child at `2 * i`, its value
node the child at `2 * i + 1`. -/
theorem flattenPairs_get (ps : List (Node × Node)) (i : Nat) (h : i < ps.length) :
    (flattenPairs ps)[2 * i]? = some (ps.get ⟨i, h⟩).1 ∧
      (flattenPairs ps)[2 * i + 1]? = some (ps.get ⟨i, h⟩).2 := by
  induction ps generalizing i with
  | nil => exact absurd h (Nat.not_lt_zero i)
  | cons p ps ih =>
    obtain ⟨k, v⟩ := p
    cases i with
    | zero => exact ⟨rfl, by simp [flattenPairs]⟩
    | succ j =>
      have hj : j < ps.length := Nat.lt_of_succ_lt_succ h
      obtain ⟨h1, h2⟩ := ih j hj
      have e1 : 2 * (j + 1) = (2 * j) + 1 + 1 := by omega
      have e2 : 2 * (j + 1) + 1 = (2 * j + 1) + 1 + 1 := by omega
      refine ⟨?_, ?_⟩
      · rw [e1]
        simpa [flattenPairs] using h1
      · rw [e2]
        simpa [flattenPairs] using h2

/-- The walker on the zero `reflect.Value`. -/
theorem ToYamlNode_invalid (L : Lib) (ro : Bool) : ToYamlNode L ro .invalid = .ok L.EncodeNil := by
  rw [ToYamlNode]

/-- C15, as stated, fails: the map `map[float64]string{NaN: "a"}` has the one
entry `(NaN, "a")`, but `MapIndex` finds nothing for the key NaN, so the
second child is the node of nil, not the node of the string `a`. -/
theorem nan_key_value_is_null :
    ToYamlNode exampleLib false nanKeyMap =
      .ok (mappingNode [exampleLib.EncodeFloat nanBits, scalarNode nullTag "null"]) ∧
    ToYamlNode exampleLib false (.float plain .Float64 nanBits) =
      .ok (exampleLib.EncodeFloat nanBits) ∧
    ToYamlNode exampleLib false (.string plain "a") = .ok (scalarNode strTag "a") ∧
    selfEqual (.float plain .Float64 nanBits) = false := by
  refine ⟨rfl, rfl, rfl, by decide⟩

/-- C15, amended: a map with the stored entries `(k_i, v_i)`, in iteration
order, whose keys all convert and whose values convert wherever the key is
equal to itself, whatever the shape of the keys, converts to a mapping node
tagged `!!map` with twice as many children as entries; the children at the
positions `2 * i` and `2 * i + 1` (counted from zero) are the node of `k_i`
and, when `k_i` is equal to itself (it neither is nor contains a NaN), the node
of `v_i`; for a key that is not equal to itself the second is what the encoder
leaves for nil.  A nil map gives a mapping without children. -/
theorem map_children_of_entries (L : Lib) :
    (∀ (t : TypeInfo) (stored : List (Value × Value)),
      (∀ e ∈ stored, (∃ kn, ToYamlNode L false e.1 = .ok kn) ∧
        (selfEqual e.1 = true → ∃ vn, ToYamlNode L false e.2 = .ok vn)) →
      ∃ (pairs : List (Node × Node)) (content : List Node),
        ToYamlNode L false (mapOf t stored) =
          .ok (.mk .MappingNode 0 "!!map" "" "" content "" "" "") ∧
        content = flattenPairs pairs ∧
        content.length = 2 * stored.length ∧
        pairs.length = stored.length ∧
        ∀ (i : Nat) (h₁ : i < stored.length) (h₂ : i < pairs.length),
          ToYamlNode L false (stored.get ⟨i, h₁⟩).1 = .ok (pairs.get ⟨i, h₂⟩).1 ∧
          (selfEqual (stored.get ⟨i, h₁⟩).1 = true →
            ToYamlNode L false (stored.get ⟨i, h₁⟩).2 = .ok (pairs.get ⟨i, h₂⟩).2) ∧
          (selfEqual (stored.get ⟨i, h₁⟩).1 = false →
            (pairs.get ⟨i, h₂⟩).2 = L.EncodeNil) ∧
          content[2 * i]? = some (pairs.get ⟨i, h₂⟩).1 ∧
          content[2 * i + 1]? = some (pairs.get ⟨i, h₂⟩).2) ∧
    (∀ t : TypeInfo,
      ToYamlNode L false (.nilMap t) = .ok (.mk .MappingNode 0 "!!map" "" "" [] "" "" "")) := by
  refine ⟨?_, ?_⟩
  · intro t stored hall
    have hall' : ∀ e ∈ stored, ∃ p : Node × Node,
        ToYamlNode L false e.1 = .ok p.1 ∧
          ToYamlNode L false (MapIndex e.1 e.2) = .ok p.2 := by
      intro e he
      obtain ⟨⟨kn, hk⟩, hv⟩ := hall e he
      by_cases hs : selfEqual e.1 = true
      · obtain ⟨vn, hvn⟩ := hv hs
        exact ⟨(kn, vn), hk, by simp only [MapIndex, hs, if_true]; exact hvn⟩
      · exact ⟨(kn, L.EncodeNil), hk, by
          simp only [MapIndex, hs, if_false]
          exact ToYamlNode_invalid L false⟩
    obtain ⟨ps, hps⟩ := exists_forall₂ _ stored hall'
    have hps' : List.Forall₂
        (fun e p => ToYamlNode L false e.1 = .ok p.1 ∧ ToYamlNode L false e.2 = .ok p.2)
        (stored.map (fun e => (e.1, MapIndex e.1 e.2))) ps :=
      List.forall₂_map_left_iff.mpr hps
    refine ⟨ps, flattenPairs ps, ?_, rfl, ?_, hps.length_eq.symm, ?_⟩
    · unfold mapOf
      rw [ToYamlNode_map, ToYamlNodeEntries_ok L false _ ps [] hps']
      rfl
    · rw [flattenPairs_length, hps.length_eq]
    · intro i h₁ h₂
      obtain ⟨a, b⟩ := hps.get h₁ h₂
      obtain ⟨c, d⟩ := flattenPairs_get ps i h₂
      refine ⟨a, ?_, ?_, c, d⟩
      · intro hs
        simp only [MapIndex, hs, if_true] at b
        exact b
      · intro hs
        simp only [MapIndex, hs, Bool.false_eq_true, if_false] at b
        rw [ToYamlNode_invalid] at b
        injection b with b
        exact b.symm
  · intro t
    rw [ToYamlNode]
    rfl

/-- Witness of C15 amended, on `map[int]string{1: "a", 2: "b"}`, whose keys are
integers. -/
theorem map_children_of_entries_witness :
    ∃ (pairs : List (Node × Node)) (content : List Node),
      ToYamlNode exampleLib false (mapOf plain intKeyEntries) =
        .ok (.mk .MappingNode 0 "!!map" "" "" content "" "" "") ∧
      content = flattenPairs pairs ∧
      content.length = 2 * intKeyEntries.length ∧
      pairs.length = intKeyEntries.length ∧
      ∀ (i : Nat) (h₁ : i < intKeyEntries.length) (h₂ : i < pairs.length),
        ToYamlNode exampleLib false (intKeyEntries.get ⟨i, h₁⟩).1 = .ok (pairs.get ⟨i, h₂⟩).1 ∧
        (selfEqual (intKeyEntries.get ⟨i, h₁⟩).1 = true →
          ToYamlNode exampleLib false (intKeyEntries.get ⟨i, h₁⟩).2 =
            .ok (pairs.get ⟨i, h₂⟩).2) ∧
        (selfEqual (intKeyEntries.get ⟨i, h₁⟩).1 = false →
          (pairs.get ⟨i, h₂⟩).2 = exampleLib.EncodeNil) ∧
        content[2 * i]? = some (pairs.get ⟨i, h₂⟩).1 ∧
        content[2 * i + 1]? = some (pairs.get ⟨i, h₂⟩).2 :=
  (map_children_of_entries exampleLib).1 plain intKeyEntries
    (fun e he => by
      simp only [intKeyEntries, List.mem_cons, List.mem_singleton, List.not_mem_nil,
        or_false] at he
      rcases he with h | h
      · exact ⟨⟨scalarNode intTag "1", by rw [h]; rfl⟩,
          fun _ => ⟨scalarNode strTag "a", by rw [h]; rfl⟩⟩
      · exact ⟨⟨scalarNode intTag "2", by rw [h]; rfl⟩,
          fun _ => ⟨scalarNode strTag "b", by rw [h]; rfl⟩⟩)

/-! ## C16: scalars -/

/-- C16: a string, an integer of any signed or unsigned kind and a boolean are
converted to what the encoder leaves for the string, the int64, the uint64 and
the boolean; but a float is converted to what the encoder leaves for the
float64 `Value.Float()` returns, whatever its kind: the kind `Float32` does
not reach the encoder, so the node of a float32 is the native node of a
float32 exactly when the encoder gives the float32 and the float64 of the same
value the same node. -/
theorem scalars_encoded_float32_as_float64 (L : Lib) :
    (∀ (t : TypeInfo) (s : String), ToYamlNode L false (.string t s) = .ok (L.EncodeString s)) ∧
    (∀ (t : TypeInfo) (k : IntKind) (i : Int),
      ToYamlNode L false (.int t k i) = .ok (L.EncodeInt i)) ∧
    (∀ (t : TypeInfo) (k : UintKind) (n : Nat),
      ToYamlNode L false (.uint t k n) = .ok (L.EncodeUint n)) ∧
    (∀ (t : TypeInfo) (b : Bool), ToYamlNode L false (.bool t b) = .ok (L.EncodeBool b)) ∧
    (∀ (t : TypeInfo) (k : FloatKind) (bits : Nat),
      ToYamlNode L false (.float t k bits) = .ok (L.EncodeFloat bits)) ∧
    ToYamlNode L false (.float plain .Float32 tenthAsFloat32) =
      ToYamlNode L false (.float plain .Float64 tenthAsFloat32) ∧
    (∀ (native32 : Nat → Node) (t : TypeInfo) (bits : Nat),
      ToYamlNode L false (.float t .Float32 bits) = .ok (native32 bits) ↔
        L.EncodeFloat bits = native32 bits) := by
  refine ⟨?_, ?_, ?_, ?_, ?_, ?_, ?_⟩
  · intro t s; rw [ToYamlNode]; rfl
  · intro t k i; rw [ToYamlNode]; rfl
  · intro t k n; rw [ToYamlNode]; rfl
  · intro t b; rw [ToYamlNode]; rfl
  · intro t k bits; rw [ToYamlNode]; rfl
  · rw [ToYamlNode, ToYamlNode]
  · intro native32 t bits
    rw [ToYamlNode]
    simp only [viaInterface, Bool.false_eq_true, if_false, Result.ok.injEq]

/-! ## C17: shapes the walker does not know -/

/-- The sequence loop on a list cut in two. -/
theorem ToYamlNodeList_append (L : Lib) (ro : Bool) (pre post : List Value)
    (content : List Node) :
    ToYamlNodeList L ro (pre ++ post) content =
      (ToYamlNodeList L ro pre content).bind (fun c => ToYamlNodeList L ro post c) := by
  induction pre generalizing content with
  | nil => simp [ToYamlNodeList, Result.bind]
  | cons x rest ih =>
    rw [List.cons_append, ToYamlNodeList_cons, ToYamlNodeList_cons]
    cases ToYamlNode L ro x with
    | error m => rfl
    | panic m => rfl
    | ok n => simp only [Result.bind_ok]; exact ih _

/-- The map loop on a list cut in two. -/
theorem ToYamlNodeEntries_append (L : Lib) (ro : Bool) (pre post : List (Value × Value))
    (content : List Node) :
    ToYamlNodeEntries L ro (pre ++ post) content =
      (ToYamlNodeEntries L ro pre content).bind (fun c => ToYamlNodeEntries L ro post c) := by
  induction pre generalizing content with
  | nil => simp [ToYamlNodeEntries, Result.bind]
  | cons x rest ih =>
    obtain ⟨k, v⟩ := x
    rw [List.cons_append, ToYamlNodeEntries_cons, ToYamlNodeEntries_cons]
    cases ToYamlNode L ro k with
    | error m => rfl
    | panic m => rfl
    | ok kn =>
      cases ToYamlNode L ro v with
      | error m => rfl
      | panic m => rfl
      | ok vn => simp only [Result.bind_ok]; exact ih _

/-- A directly emitted field that is kept and whose value makes the walker
panic makes the struct loop panic. -/
theorem fieldContribution_panic (L : Lib) (field : StructField) (value : Value) (d : Directive)
    (m : String) (hvis : field.PkgPath = "" ∨ field.Anonymous = true)
    (hskip : fieldTag L field ≠ "-") (hd : parseTag (fieldTag L field) = some d)
    (hinl : d.inline = false)
    (hkeep : d.omit_empty = true → isZero (decide (field.PkgPath ≠ "")) value = .ok false)
    (hv : ToYamlNode L (decide (field.PkgPath ≠ "")) value = .panic m) :
    fieldContribution L field value = .panic m := by
  rw [fieldContribution_parsed L field value d hvis hskip hd]
  have hz : (if d.omit_empty = true then isZero (decide (field.PkgPath ≠ "")) value
      else Result.ok false) = .ok false := by
    by_cases ho : d.omit_empty = true
    · simp only [ho, if_true, hkeep ho]
    · simp only [ho, if_false, Bool.false_eq_true]
  rw [hz]
  simp only [Result.bind_ok, Bool.false_eq_true, if_false, hinl, hv]

/-- C17, as stated, fails: a channel that is the value of a non-skipped,
non-omitted field marked inline makes the struct return the inline error, and
a channel that comes after an element whose conversion returns an error is
never converted; both calls return an error value, neither aborts. -/
theorem unsupported_shape_not_always_abort :
    ToYamlNode exampleLib false (.other plain .Chan) = .panic cannotMarshalPanic ∧
    ToYamlNode exampleLib false chanInline = .error inlineError ∧
    ToYamlNode exampleLib false flowThenChan = .error flowError := by
  refine ⟨rfl, rfl, rfl⟩

/-- C17, amended: a value of a shape the kind switch does not list makes the
walker panic; and a value that makes the walker panic, as an element of a
slice (not a `[]byte`) or array, as a key or a value of a map, or as the value
of an exported, non-skipped field without the `flow` and `inline` flags that
is not omitted by `omitempty`, makes the walker panic on the enclosing value
with the same message, provided the elements, entries or fields before it
convert. -/
theorem unsupported_shape_aborts (L : Lib) :
    (∀ (t : TypeInfo) (k : OtherKind),
      ToYamlNode L false (.other t k) = .panic cannotMarshalPanic) ∧
    (∀ (t : TypeInfo) (e : GoType) (pre post : List Value) (x : Value) (m : String)
      (c : List Node),
      (Value.slice t e (pre ++ x :: post)).Type ≠ typeOfBytes →
      ToYamlNode L false x = .panic m → ToYamlNodeList L false pre [] = .ok c →
      ToYamlNode L false (.slice t e (pre ++ x :: post)) = .panic m) ∧
    (∀ (t : TypeInfo) (pre post : List Value) (x : Value) (m : String) (c : List Node),
      ToYamlNode L false x = .panic m → ToYamlNodeList L false pre [] = .ok c →
      ToYamlNode L false (.array t (pre ++ x :: post)) = .panic m) ∧
    (∀ (t : TypeInfo) (pre post : List (Value × Value)) (k v : Value) (m : String)
      (c : List Node),
      ToYamlNode L false k = .panic m → ToYamlNodeEntries L false pre [] = .ok c →
      ToYamlNode L false (.map t (pre ++ (k, v) :: post)) = .panic m) ∧
    (∀ (t : TypeInfo) (pre post : List (Value × Value)) (k v : Value) (m : String)
      (c : List Node) (kn : Node),
      ToYamlNode L false k = .ok kn → ToYamlNode L false v = .panic m →
      ToYamlNodeEntries L false pre [] = .ok c →
      ToYamlNode L false (.map t (pre ++ (k, v) :: post)) = .panic m) ∧
    (∀ (t : TypeInfo) (pre post : List (StructField × Value)) (f : StructField) (v : Value)
      (m : String) (c : List Node),
      f.PkgPath = "" → fieldTag L f ≠ "-" →
      "flow" ∉ tagFlags (fieldTag L f) → "inline" ∉ tagFlags (fieldTag L f) →
      ("omitempty" ∈ tagFlags (fieldTag L f) → isZero false v = .ok false) →
      ToYamlNode L false v = .panic m → ToYamlNodeFields L pre [] = .ok c →
      ToYamlNode L false (.struct t (pre ++ (f, v) :: post)) = .panic m) := by
  refine ⟨?_, ?_, ?_, ?_, ?_, ?_⟩
  · intro t k
    rw [ToYamlNode]
    rfl
  · intro t e pre post x m c hty hx hpre
    rw [ToYamlNode_slice L t e _ hty, ToYamlNodeList_append, hpre, Result.bind_ok,
      ToYamlNodeList_cons, hx]
    rfl
  · intro t pre post x m c hx hpre
    rw [ToYamlNode_array, ToYamlNodeList_append, hpre, Result.bind_ok,
      ToYamlNodeList_cons, hx]
    rfl
  · intro t pre post k v m c hk hpre
    rw [ToYamlNode_map, ToYamlNodeEntries_append, hpre, Result.bind_ok,
      ToYamlNodeEntries_cons, hk]
    rfl
  · intro t pre post k v m c kn hk hv hpre
    rw [ToYamlNode_map, ToYamlNodeEntries_append, hpre, Result.bind_ok,
      ToYamlNodeEntries_cons, hk, Result.bind_ok, hv]
    rfl
  · intro t pre post f v m c hexp hskip hflow hinl hkeep hv hpre
    obtain ⟨name, hd⟩ := parseTag_noflow _ hflow
    have hn : fieldContribution L f v = .panic m := by
      apply fieldContribution_panic L f v _ m (Or.inl hexp) hskip hd
      · simp [hinl]
      · intro ho
        rw [ro_of_exported f hexp]
        exact hkeep (of_decide_eq_true ho)
      · rw [ro_of_exported f hexp]
        exact hv
    rw [ToYamlNode_struct, ToYamlNodeFields_split, hpre, hn]
    rfl

/-- Witness of C17 amended, on `struct { A int "yaml:\"a\""; C chan int; B int }`:
the channel is the value of a directly emitted field. -/
theorem unsupported_shape_aborts_witness :
    ToYamlNode exampleLib false
      (.struct plain (dashPre ++ (chanField, .other plain .Chan) :: dashPost)) =
      .panic cannotMarshalPanic :=
  (unsupported_shape_aborts exampleLib).2.2.2.2.2 plain dashPre dashPost chanField
    (.other plain .Chan) cannotMarshalPanic [scalarNode strTag "a", scalarNode intTag "1"]
    rfl (by decide) (by decide) (by decide) (fun _ => rfl) rfl rfl

/-! ## C18: the emptiness rule by shape -/

/-- The field loop of the emptiness rule, when it panics on no exported field:
it answers, and it answers `true` exactly when the rule holds of every
exported field. -/
theorem isZeroFields_spec (fs : List (StructField × Value))
    (h : ∀ p ∈ fs, p.1.PkgPath = "" → ∃ b, isZero false p.2 = .ok b) :
    ∃ b, isZeroFields fs = .ok b ∧
      (b = true ↔ ∀ p ∈ fs, p.1.PkgPath = "" → isZero false p.2 = .ok true) := by
  induction fs with
  | nil => exact ⟨true, rfl, by simp⟩
  | cons x rest ih =>
    obtain ⟨field, value⟩ := x
    obtain ⟨b, hb, hiff⟩ := ih (fun p hp => h p (List.mem_cons_of_mem _ hp))
    rw [isZeroFields, hb]
    cases b with
    | false =>
      refine ⟨false, rfl, ?_⟩
      constructor
      · intro hf
        exact Bool.noConfusion hf
      · intro hall
        exact hiff.mpr (fun p hp => hall p (List.mem_cons_of_mem _ hp))
    | true =>
      have hrest := hiff.mp rfl
      by_cases hp : field.PkgPath = ""
      · obtain ⟨z, hz⟩ := h (field, value) (List.mem_cons_self _ _) hp
        refine ⟨z, by simp [hp, hz], ?_⟩
        constructor
        · intro hzt p hpm hpe
          rcases List.mem_cons.mp hpm with heq | hmem
          · rw [heq, hz, hzt]
          · exact hrest p hmem hpe
        · intro hall
          have := hall (field, value) (List.mem_cons_self _ _) hp
          rw [hz] at this
          injection this
      · refine ⟨true, by simp [hp], ?_⟩
        constructor
        · intro _ p hpm hpe
          rcases List.mem_cons.mp hpm with heq | hmem
          · rw [heq] at hpe
            exact absurd hpe hp
          · exact hrest p hmem hpe
        · intro _
          rfl

/-- C18, as stated, fails when the zero-length sequence is an array: the
emptiness rule has no case for arrays and answers `false` on `[0]int{}`. -/
theorem empty_array_not_empty :
    emptyArray.IsZeroer = none ∧ isZero false emptyArray = .ok false := by
  refine ⟨rfl, rfl⟩

/-- C18, amended: for a value whose type has no custom `IsZero`, the emptiness
rule answers `true` exactly on the empty string, a nil pointer, a nil
interface, a nil or zero-length slice, a nil or zero-length map, a zero number
(signed, unsigned, or a float equal to zero), the boolean `false`, and a struct
all of whose exported fields the rule holds of (so a struct without exported
fields is empty); it answers `false` on every other value, in particular on a
non-nil pointer, on a non-nil interface holding a value without custom
`IsZero`, and on an array of any length. -/
theorem isZero_by_shape :
    (∀ t : TypeInfo, t.IsZeroer = none →
      (∀ s, isZero false (.string t s) = .ok (decide (s = ""))) ∧
      (∀ k i, isZero false (.int t k i) = .ok (decide (i = 0))) ∧
      (∀ k n, isZero false (.uint t k n) = .ok (decide (n = 0))) ∧
      (∀ k bits, isZero false (.float t k bits) = .ok (decide (bits % 2 ^ 63 = 0))) ∧
      (∀ b, isZero false (.bool t b) = .ok (!b)) ∧
      (∀ e, isZero false (.nilPtr t e) = .ok true) ∧
      (∀ w, isZero false (.ptr t w) = .ok false) ∧
      (∀ e, isZero false (.nilSlice t e) = .ok true) ∧
      (∀ e xs, isZero false (.slice t e xs) = .ok xs.isEmpty) ∧
      isZero false (.nilMap t) = .ok true ∧
      (∀ es, isZero false (.map t es) = .ok es.isEmpty) ∧
      (∀ xs, isZero false (.array t xs) = .ok false) ∧
      (∀ k, isZero false (.other t k) = .ok false) ∧
      (∀ fs : List (StructField × Value),
        (∀ p ∈ fs, p.1.PkgPath = "" → ∃ b, isZero false p.2 = .ok b) →
        ∃ b, isZero false (.struct t fs) = .ok b ∧
          (b = true ↔ ∀ p ∈ fs, p.1.PkgPath = "" → isZero false p.2 = .ok true)) ∧
      (∀ fs : List (StructField × Value), (∀ p ∈ fs, p.1.PkgPath ≠ "") →
        isZero false (.struct t fs) = .ok true)) ∧
    isZero false .nilIface = .ok true ∧
    (∀ w : Value, w.IsZeroer = none → isZero false (.iface w) = .ok false) := by
  refine ⟨?_, ?_, ?_⟩
  · intro t ht
    refine ⟨?_, ?_, ?_, ?_, ?_, ?_, ?_, ?_, ?_, ?_, ?_, ?_, ?_, ?_, ?_⟩
    · intro s
      rw [isZero]
      simp only [viaIsZeroer, Value.IsZeroer, ht, Bool.false_eq_true, if_false]
      by_cases hs : s = ""
      · subst hs; rfl
      · have : ¬ s.length = 0 := fun h => hs ((string_length_zero s).mp h)
        simp [hs, this]
    · intro k i
      rw [isZero]
      simp [viaIsZeroer, Value.IsZeroer, ht]
    · intro k n
      rw [isZero]
      simp [viaIsZeroer, Value.IsZeroer, ht]
    · intro k bits
      rw [isZero]
      simp [viaIsZeroer, Value.IsZeroer, ht]
    · intro b
      rw [isZero]
      simp [viaIsZeroer, Value.IsZeroer, ht]
    · intro e
      rw [isZero]
      simp [viaIsZeroer, Value.IsZeroer, ht]
    · intro w
      rw [isZero]
      simp [viaIsZeroer, Value.IsZeroer, ht]
    · intro e
      rw [isZero]
      simp [viaIsZeroer, Value.IsZeroer, ht]
    · intro e xs
      rw [isZero]
      cases xs <;> simp [viaIsZeroer, Value.IsZeroer, ht]
    · rw [isZero]
      simp [viaIsZeroer, Value.IsZeroer, ht]
    · intro es
      rw [isZero]
      cases es <;> simp [viaIsZeroer, Value.IsZeroer, ht]
    · intro xs
      rw [isZero]
      simp [viaIsZeroer, Value.IsZeroer, ht]
    · intro k
      rw [isZero]
      simp [viaIsZeroer, Value.IsZeroer, ht]
    · intro fs hfs
      obtain ⟨b, hb, hiff⟩ := isZeroFields_spec fs hfs
      refine ⟨b, ?_, hiff⟩
      rw [isZero]
      simp only [viaIsZeroer, Value.IsZeroer, ht, Bool.false_eq_true, if_false, hb]
    · intro fs hfs
      obtain ⟨b, hb, hiff⟩ := isZeroFields_spec fs (fun p hp he => absurd he (hfs p hp))
      have hbt : b = true := hiff.mpr (fun p hp he => absurd he (hfs p hp))
      rw [isZero]
      simp only [viaIsZeroer, Value.IsZeroer, ht, Bool.false_eq_true, if_false, hb, hbt]
  · rw [isZero]
    simp [viaIsZeroer, Value.IsZeroer]
  · intro w hw
    rw [isZero]
    simp [viaIsZeroer, Value.IsZeroer, hw]

/-- Witness of C18 amended, on `struct { A string; b int; C []int }{"", 5, nil}`:
the unexported `b` is ignored and the struct is empty. -/
theorem isZero_by_shape_witness :
    ∃ b, isZero false (.struct plain emptyRecordFields) = .ok b ∧
      (b = true ↔ ∀ p ∈ emptyRecordFields, p.1.PkgPath = "" → isZero false p.2 = .ok true) :=
  (isZero_by_shape.1 plain rfl).2.2.2.2.2.2.2.2.2.2.2.2.2.1 emptyRecordFields
    (fun p hp he => by
      simp only [emptyRecordFields, List.mem_cons, List.mem_singleton, List.not_mem_nil,
        or_false] at hp
      rcases hp with h | h | h
      · exact ⟨true, by rw [h]; rfl⟩
      · rw [h] at he
        exact absurd he (by decide)
      · exact ⟨true, by rw [h]; rfl⟩)

/-! ## C19: the children of a mapping come in pairs -/

/-- The trees of two lists put together. -/
theorem evenTrees_append (a b : List Node) :
    evenTrees (a ++ b) = (evenTrees a && evenTrees b) := by
  induction a with
  | nil => simp [evenTrees]
  | cons n ns ih => simp [evenTrees, ih, Bool.and_assoc]

/-- The children of a tree in which mappings have pairs are such trees. -/
theorem evenTrees_Content (n : Node) (h : n.evenTree = true) : evenTrees n.Content = true := by
  cases n
  simp only [Node.evenTree, Bool.and_eq_true] at h
  exact h.2

/-- A mapping node in which mappings have pairs has an even number of children. -/
theorem even_of_mapping (n : Node) (h : n.evenTree = true) (hk : n.Kind = .MappingNode) :
    n.Content.length % 2 = 0 := by
  cases n
  simp only [Node.Kind] at hk
  simp only [Node.evenTree, Bool.and_eq_true, Bool.or_eq_true, decide_eq_true_eq] at h
  rcases h.1 with h1 | h1
  · exact absurd hk h1
  · exact h1

/-- The mapping node over children that come in pairs. -/
theorem evenTree_mappingNode (c : List Node) (h1 : evenTrees c = true)
    (h2 : c.length % 2 = 0) : (mappingNode c).evenTree = true := by
  simp [mappingNode, Node.evenTree, h1, h2]

/-- A sequence node over trees in which mappings have pairs. -/
theorem evenTree_sequenceNode (c : List Node) (h1 : evenTrees c = true) :
    (sequenceNode c).evenTree = true := by
  simp [sequenceNode, Node.evenTree, h1]

/-- The three assignments do not touch the children. -/
theorem evenTree_setComments (n : Node) (h f l : String) :
    (n.setComments h f l).evenTree = n.evenTree := by
  cases n
  rfl

/-- A call that went past `in.Interface()` was on a value that is not read-only. -/
theorem viaInterface_ok {α : Type} (ro : Bool) (r : Result α) (a : α)
    (h : viaInterface ro r = .ok a) : ro = false ∧ r = .ok a := by
  cases ro with
  | false => exact ⟨rfl, h⟩
  | true => exact Result.noConfusion h

/-- A type the inline switch accepts is a map type or ends in a struct type. -/
theorem inlineShape_of_allowed (T : GoType) (h : inlineAllowed T = true) :
    inlineShape T = true := by
  unfold inlineAllowed at h
  unfold inlineShape
  split at h <;> simp_all

/-- A predeclared or composite type that is no struct, map or pointer type
neither is a map type nor ends in a struct type. -/
theorem inlineShape_basic (t : TypeInfo) (k : Kind) (h1 : k ≠ .Struct) (h2 : k ≠ .Map)
    (h3 : k ≠ .Ptr) : inlineShape (t.wrap (.basic k)) = false := by
  unfold inlineShape TypeInfo.wrap
  by_cases hn : t.Name = "" <;> simp [hn, derefType, GoType.Kind, h1, h2, h3]

/-- A slice type neither is a map type nor ends in a struct type. -/
theorem inlineShape_slice (t : TypeInfo) (e : GoType) :
    inlineShape (t.wrap (.slice e)) = false := by
  unfold inlineShape TypeInfo.wrap
  by_cases hn : t.Name = "" <;> simp [hn, derefType, GoType.Kind]

/-- A pointer type that ends in a struct type points to a type that does. -/
theorem inlineShape_ptr (t : TypeInfo) (T : GoType)
    (h : inlineShape (t.wrap (.ptr T)) = true) : inlineShape T = true := by
  unfold inlineShape TypeInfo.wrap at h
  unfold inlineShape
  by_cases hn : t.Name = "" <;> simp [hn, derefType, GoType.Kind] at h <;> simp [h]

/-- What a field that contributes contributes: nothing, or the children of the
node of its value when its declared type passes the inline switch, or a key
node that is an encoded string and the node of its value after the three
assignments. -/
theorem fieldContribution_ok_cases (L : Lib) (field : StructField) (value : Value)
    (ns : List Node) (h : fieldContribution L field value = .ok ns) :
    ns = [] ∨
    (∃ ro child, ToYamlNode L ro value = .ok child ∧ inlineAllowed value.Type = true ∧
      ns = child.Content) ∨
    (∃ ro n name hc fc lc, ToYamlNode L ro value = .ok n ∧
      ns = [L.EncodeString name, n.setComments hc fc lc]) := by
  by_cases hvis : field.PkgPath = "" ∨ field.Anonymous = true
  · by_cases hskip : fieldTag L field = "-"
    · rw [fieldContribution_skip L field value hskip] at h
      injection h with h
      exact Or.inl h.symm
    · obtain ⟨d, hd⟩ := parseTag_of_contribution L field value ns hvis h
      by_cases hom : d.omit_empty = true ∧
          isZero (decide (field.PkgPath ≠ "")) value = .ok true
      · rw [fieldContribution_omitted L field value d hvis hskip hd hom.1 hom.2] at h
        injection h with h
        exact Or.inl h.symm
      · by_cases hi : d.inline = true
        · obtain ⟨ha, child, hchild, hns⟩ :=
            fieldContribution_inline_inv L field value d ns hvis hskip hd hi hom h
          exact Or.inr (Or.inl ⟨_, child, hchild, ha, hns⟩)
        · have hi' : d.inline = false := by
            cases hdi : d.inline with
            | true => exact absurd hdi hi
            | false => rfl
          obtain ⟨n, hn, hns⟩ :=
            fieldContribution_direct L field value d ns hvis hskip hd hi' hom h
          exact Or.inr (Or.inr ⟨_, n, _, _, _, _, hn, hns⟩)
  · have hp : field.PkgPath ≠ "" ∧ field.Anonymous = false := by
      constructor
      · exact fun he => hvis (Or.inl he)
      · cases ha : field.Anonymous with
        | true => exact absurd (Or.inr ha) hvis
        | false => rfl
    unfold fieldContribution at h
    rw [if_pos hp] at h
    injection h with h
    exact Or.inl h.symm

mutual
/-- The node of a value has pairs in all its mappings, and an even number of
children when the declared type of the value is a map type or ends in a struct
type. -/
theorem even_ToYamlNode (L : Lib) (hL : L.evenOutputs) :
    ∀ (v : Value) (ro : Bool) (n : Node), ToYamlNode L ro v = .ok n →
      n.evenTree = true ∧ (inlineShape v.Type = true → n.Content.length % 2 = 0)
  | .invalid, ro, n, h => by
    rw [ToYamlNode] at h
    injection h with h
    subst h
    exact ⟨hL.1, fun _ => hL.2.1⟩
  | .nilIface, ro, n, h => by
    rw [ToYamlNode] at h
    obtain ⟨_, h⟩ := viaInterface_ok _ _ _ h
    injection h with h
    subst h
    exact ⟨hL.1, fun _ => hL.2.1⟩
  | .iface v, ro, n, h => by
    rw [ToYamlNode] at h
    obtain ⟨_, h⟩ := viaInterface_ok _ _ _ h
    refine ⟨?_, fun hq => ?_⟩
    · cases hb : v.asBytes with
      | some b =>
        rw [hb] at h
        injection h with h
        subst h
        exact hL.2.2.1 b
      | none =>
        rw [hb] at h
        exact (even_ToYamlNode L hL v ro n h).1
    · simp [Value.Type, inlineShape, derefType, GoType.Kind] at hq
  | .nilMap t, ro, n, h => by
    rw [ToYamlNode] at h
    obtain ⟨_, h⟩ := viaInterface_ok _ _ _ h
    injection h with h
    subst h
    exact ⟨rfl, fun _ => rfl⟩
  | .map t es, ro, n, h => by
    rw [ToYamlNode] at h
    obtain ⟨_, h⟩ := viaInterface_ok _ _ _ h
    cases hc : ToYamlNodeEntries L ro es [] with
    | error m => rw [hc] at h; exact Result.noConfusion h
    | panic m => rw [hc] at h; exact Result.noConfusion h
    | ok c =>
      rw [hc] at h
      injection h with h
      subst h
      have hh := even_Entries L hL es ro [] c rfl rfl hc
      exact ⟨evenTree_mappingNode c hh.1 hh.2, fun _ => hh.2⟩
  | .nilPtr t e, ro, n, h => by
    rw [ToYamlNode] at h
    obtain ⟨_, h⟩ := viaInterface_ok _ _ _ h
    injection h with h
    subst h
    exact ⟨hL.1, fun _ => hL.2.1⟩
  | .ptr t w, ro, n, h => by
    rw [ToYamlNode] at h
    obtain ⟨_, h⟩ := viaInterface_ok _ _ _ h
    have hh := even_ToYamlNode L hL w ro n h
    exact ⟨hh.1, fun hq => hh.2 (inlineShape_ptr t w.Type hq)⟩
  | .struct t fs, ro, n, h => by
    rw [ToYamlNode] at h
    obtain ⟨_, h⟩ := viaInterface_ok _ _ _ h
    cases hc : ToYamlNodeFields L fs [] with
    | error m => rw [hc] at h; exact Result.noConfusion h
    | panic m => rw [hc] at h; exact Result.noConfusion h
    | ok c =>
      rw [hc] at h
      injection h with h
      subst h
      have hh := even_Fields L hL fs [] c rfl rfl hc
      exact ⟨evenTree_mappingNode c hh.1 hh.2, fun _ => hh.2⟩
  | .nilSlice t e, ro, n, h => by
    rw [ToYamlNode] at h
    obtain ⟨_, h⟩ := viaInterface_ok _ _ _ h
    refine ⟨?_, fun hq => ?_⟩
    · cases hb : (Value.nilSlice t e).asBytes with
      | some b =>
        rw [hb] at h
        injection h with h
        subst h
        exact hL.2.2.1 b
      | none =>
        rw [hb] at h
        by_cases hty : (Value.nilSlice t e).Type = typeOfBytes
        · simp only [hty, if_true] at h
          injection h with h
          subst h
          exact hL.2.2.1 none
        · simp only [hty, if_false] at h
          injection h with h
          subst h
          rfl
    · rw [Value.Type, inlineShape_slice] at hq
      exact Bool.noConfusion hq
  | .slice t e items, ro, n, h => by
    rw [ToYamlNode] at h
    obtain ⟨_, h⟩ := viaInterface_ok _ _ _ h
    refine ⟨?_, fun hq => ?_⟩
    · cases hb : (Value.slice t e items).asBytes with
      | some b =>
        rw [hb] at h
        injection h with h
        subst h
        exact hL.2.2.1 b
      | none =>
        rw [hb] at h
        by_cases hty : (Value.slice t e items).Type = typeOfBytes
        · simp only [hty, if_true] at h
          injection h with h
          subst h
          exact hL.2.2.1 _
        · simp only [hty, if_false] at h
          cases hc : ToYamlNodeList L ro items [] with
          | error m => rw [hc] at h; exact Result.noConfusion h
          | panic m => rw [hc] at h; exact Result.noConfusion h
          | ok c =>
            rw [hc] at h
            injection h with h
            subst h
            exact evenTree_sequenceNode c (even_List L hL items ro [] c rfl hc)
    · rw [Value.Type, inlineShape_slice] at hq
      exact Bool.noConfusion hq
  | .array t items, ro, n, h => by
    rw [ToYamlNode] at h
    obtain ⟨_, h⟩ := viaInterface_ok _ _ _ h
    refine ⟨?_, fun hq => ?_⟩
    · by_cases hty : (Value.array t items).Type = typeOfBytes
      · simp only [hty, if_true] at h
        injection h with h
        subst h
        exact hL.2.2.1 _
      · simp only [hty, if_false] at h
        cases hc : ToYamlNodeList L ro items [] with
        | error m => rw [hc] at h; exact Result.noConfusion h
        | panic m => rw [hc] at h; exact Result.noConfusion h
        | ok c =>
          rw [hc] at h
          injection h with h
          subst h
          exact evenTree_sequenceNode c (even_List L hL items ro [] c rfl hc)
    · rw [Value.Type, inlineShape_basic t .Array (by decide) (by decide) (by decide)] at hq
      exact Bool.noConfusion hq
  | .string t s, ro, n, h => by
    rw [ToYamlNode] at h
    obtain ⟨_, h⟩ := viaInterface_ok _ _ _ h
    injection h with h
    subst h
    refine ⟨hL.2.2.2.1 s, fun hq => ?_⟩
    rw [Value.Type, inlineShape_basic t .String (by decide) (by decide) (by decide)] at hq
    exact Bool.noConfusion hq
  | .int t k i, ro, n, h => by
    rw [ToYamlNode] at h
    obtain ⟨_, h⟩ := viaInterface_ok _ _ _ h
    injection h with h
    subst h
    refine ⟨hL.2.2.2.2.1 i, fun hq => ?_⟩
    rw [Value.Type, inlineShape_basic t k.toKind (by cases k <;> decide)
      (by cases k <;> decide) (by cases k <;> decide)] at hq
    exact Bool.noConfusion hq
  | .uint t k m, ro, n, h => by
    rw [ToYamlNode] at h
    obtain ⟨_, h⟩ := viaInterface_ok _ _ _ h
    injection h with h
    subst h
    refine ⟨hL.2.2.2.2.2.1 m, fun hq => ?_⟩
    rw [Value.Type, inlineShape_basic t k.toKind (by cases k <;> decide)
      (by cases k <;> decide) (by cases k <;> decide)] at hq
    exact Bool.noConfusion hq
  | .float t k bits, ro, n, h => by
    rw [ToYamlNode] at h
    obtain ⟨_, h⟩ := viaInterface_ok _ _ _ h
    injection h with h
    subst h
    refine ⟨hL.2.2.2.2.2.2.1 bits, fun hq => ?_⟩
    rw [Value.Type, inlineShape_basic t k.toKind (by cases k <;> decide)
      (by cases k <;> decide) (by cases k <;> decide)] at hq
    exact Bool.noConfusion hq
  | .bool t b, ro, n, h => by
    rw [ToYamlNode] at h
    obtain ⟨_, h⟩ := viaInterface_ok _ _ _ h
    injection h with h
    subst h
    refine ⟨hL.2.2.2.2.2.2.2 b, fun hq => ?_⟩
    rw [Value.Type, inlineShape_basic t .Bool (by decide) (by decide) (by decide)] at hq
    exact Bool.noConfusion hq
  | .other t k, ro, n, h => by
    rw [ToYamlNode] at h
    obtain ⟨_, h⟩ := viaInterface_ok _ _ _ h
    exact Result.noConfusion h
/-- The map loop keeps the children in pairs. -/
theorem even_Entries (L : Lib) (hL : L.evenOutputs) :
    ∀ (es : List (Value × Value)) (ro : Bool) (acc c : List Node),
      evenTrees acc = true → acc.length % 2 = 0 → ToYamlNodeEntries L ro es acc = .ok c →
      evenTrees c = true ∧ c.length % 2 = 0
  | [], ro, acc, c, h1, h2, h => by
    rw [ToYamlNodeEntries] at h
    injection h with h
    subst h
    exact ⟨h1, h2⟩
  | (k, v) :: rest, ro, acc, c, h1, h2, h => by
    rw [ToYamlNodeEntries_cons] at h
    cases hk : ToYamlNode L ro k with
    | error m => rw [hk] at h; exact Result.noConfusion h
    | panic m => rw [hk] at h; exact Result.noConfusion h
    | ok kn =>
      cases hv : ToYamlNode L ro v with
      | error m => rw [hk, hv] at h; exact Result.noConfusion h
      | panic m => rw [hk, hv] at h; exact Result.noConfusion h
      | ok vn =>
        rw [hk, hv] at h
        simp only [Result.bind_ok] at h
        have ek := (even_ToYamlNode L hL k ro kn hk).1
        have ev := (even_ToYamlNode L hL v ro vn hv).1
        refine even_Entries L hL rest ro (acc ++ [kn, vn]) c ?_ ?_ h
        · rw [evenTrees_append, h1]
          simp [evenTrees, ek, ev]
        · simp only [List.length_append, List.length_cons, List.length_nil]
          omega
/-- The sequence loop keeps the pairs of the mappings in its nodes. -/
theorem even_List (L : Lib) (hL : L.evenOutputs) :
    ∀ (vs : List Value) (ro : Bool) (acc c : List Node),
      evenTrees acc = true → ToYamlNodeList L ro vs acc = .ok c → evenTrees c = true
  | [], ro, acc, c, h1, h => by
    rw [ToYamlNodeList] at h
    injection h with h
    subst h
    exact h1
  | v :: rest, ro, acc, c, h1, h => by
    rw [ToYamlNodeList_cons] at h
    cases hv : ToYamlNode L ro v with
    | error m => rw [hv] at h; exact Result.noConfusion h
    | panic m => rw [hv] at h; exact Result.noConfusion h
    | ok vn =>
      rw [hv] at h
      simp only [Result.bind_ok] at h
      have ev := (even_ToYamlNode L hL v ro vn hv).1
      refine even_List L hL rest ro (acc ++ [vn]) c ?_ h
      rw [evenTrees_append, h1]
      simp [evenTrees, ev]
/-- The struct loop keeps the children in pairs. -/
theorem even_Fields (L : Lib) (hL : L.evenOutputs) :
    ∀ (fs : List (StructField × Value)) (acc c : List Node),
      evenTrees acc = true → acc.length % 2 = 0 → ToYamlNodeFields L fs acc = .ok c →
      evenTrees c = true ∧ c.length % 2 = 0
  | [], acc, c, h1, h2, h => by
    rw [ToYamlNodeFields] at h
    injection h with h
    subst h
    exact ⟨h1, h2⟩
  | (f, v) :: rest, acc, c, h1, h2, h => by
    rw [ToYamlNodeFields_cons] at h
    cases hn : fieldContribution L f v with
    | error m => rw [hn] at h; exact Result.noConfusion h
    | panic m => rw [hn] at h; exact Result.noConfusion h
    | ok ns =>
      rw [hn] at h
      simp only [Result.bind_ok] at h
      have hns : evenTrees ns = true ∧ ns.length % 2 = 0 := by
        rcases fieldContribution_ok_cases L f v ns hn with h0 | h0 | h0
        · subst h0
          exact ⟨rfl, rfl⟩
        · obtain ⟨ro, child, hchild, ha, hc⟩ := h0
          subst hc
          have hh := even_ToYamlNode L hL v ro child hchild
          exact ⟨evenTrees_Content child hh.1, hh.2 (inlineShape_of_allowed _ ha)⟩
        · obtain ⟨ro, n, name, hc, fc, lc, hnv, hc'⟩ := h0
          subst hc'
          have hh := even_ToYamlNode L hL v ro n hnv
          refine ⟨?_, by simp⟩
          simp [evenTrees, hL.2.2.2.1 name, evenTree_setComments, hh.1]
      refine even_Fields L hL rest (acc ++ ns) c ?_ ?_ h
      · rw [evenTrees_append, h1, hns.1]
        rfl
      · simp only [List.length_append]
        omega
end

/-- C19: when every mapping node in the nodes the encoder leaves has an even
number of children, and the node it leaves for nil has an even number of
children (in the encoder of the spec these nodes have none), every mapping
node anywhere in a tree the walker returns has an even number of children:
the root when it is a mapping, and every node below it. -/
theorem mapping_children_even (L : Lib) (hL : L.evenOutputs) (v : Value) (n : Node)
    (h : ToYamlNode L false v = .ok n) :
    n.evenTree = true ∧ (n.Kind = .MappingNode → n.Content.length % 2 = 0) ∧
      evenTrees n.Content = true := by
  have hh := (even_ToYamlNode L hL v false n h).1
  exact ⟨hh, even_of_mapping n hh, evenTrees_Content n hh⟩

/-- Witness of C19, with the encoder of the spec, on a struct with an inlined
empty map, an inlined struct that has an inlined field of its own, and an
inlined nil pointer to a struct. -/
theorem mapping_children_even_witness :
    ToYamlNode exampleLib false inlineMix =
      .ok (mappingNode [scalarNode strTag "a", scalarNode intTag "1",
        scalarNode strTag "x", scalarNode intTag "0"]) ∧
    ((mappingNode [scalarNode strTag "a", scalarNode intTag "1",
        scalarNode strTag "x", scalarNode intTag "0"]).evenTree = true ∧
      ((mappingNode [scalarNode strTag "a", scalarNode intTag "1",
        scalarNode strTag "x", scalarNode intTag "0"]).Kind = .MappingNode →
        (mappingNode [scalarNode strTag "a", scalarNode intTag "1",
          scalarNode strTag "x", scalarNode intTag "0"]).Content.length % 2 = 0) ∧
      evenTrees (mappingNode [scalarNode strTag "a", scalarNode intTag "1",
        scalarNode strTag "x", scalarNode intTag "0"]).Content = true) :=
  ⟨rfl, mapping_children_even exampleLib
    ⟨rfl, rfl, fun _ => rfl, fun _ => rfl, fun _ => rfl, fun _ => rfl, fun _ => rfl,
      fun _ => rfl⟩
    inlineMix _ rfl⟩

/-! ## C20: keys are not checked for distinctness -/

/-- C20: a struct with two fields of the same name, and a struct with a field
named `a` and an inlined map that has the key `a`, both convert to a mapping
node whose first and second key nodes, the children at the positions 0 and 2,
carry the same text. -/
theorem duplicate_keys_accepted :
    (∃ n k1 k2, ToYamlNode exampleLib false dupNames = .ok n ∧ n.Kind = .MappingNode ∧
      n.Content[0]? = some k1 ∧ n.Content[2]? = some k2 ∧ k1.Value = k2.Value) ∧
    (∃ n k1 k2, ToYamlNode exampleLib false dupInline = .ok n ∧ n.Kind = .MappingNode ∧
      n.Content[0]? = some k1 ∧ n.Content[2]? = some k2 ∧ k1.Value = k2.Value) ∧
    ToYamlNode exampleLib false dupNames =
      .ok (mappingNode [scalarNode strTag "a", scalarNode intTag "1",
        scalarNode strTag "a", scalarNode intTag "2"]) ∧
    ToYamlNode exampleLib false dupInline =
      .ok (mappingNode [scalarNode strTag "a", scalarNode intTag "1",
        scalarNode strTag "a", scalarNode intTag "2"]) := by
  refine ⟨⟨_, scalarNode strTag "a", scalarNode strTag "a", rfl, rfl, rfl, rfl, rfl⟩,
    ⟨_, scalarNode strTag "a", scalarNode strTag "a", rfl, rfl, rfl, rfl, rfl⟩, rfl, rfl⟩

end YamlComment
